import Mathlib

/-!
# Verification of the Brain log-template miner (Go implementation)

This file is a shallow embedding, in Lean 4, of the core parsing pipeline of
the `go-brain` repository (package `parser`): preprocessing and tokenization
with variable masking, frequency-based grouping by Longest Common Pattern,
bidirectional-tree construction with dynamic child-branch thresholds,
template extraction with post-processing, quality filtering, the relaxed
reparse loop, and aggregation.

Modelling conventions, used throughout and noted again at the definitions
they affect:

* Go strings are Lean `String`s (valid UTF-8 assumed).  Go's `len(s)` is the
  UTF-8 byte length, embedded as `goLen`; `for _, ch := range s` iterates
  runes, embedded as `String.toList`.
* Go `float64` arithmetic is embedded as exact rational/integer arithmetic.
  Every floating-point comparison in the source compares quantities that are
  ratios of small integers against small rational constants, so the exact
  semantics agrees with the IEEE semantics except at astronomically large
  inputs (denominators near 2^52); the concrete inputs evaluated here are
  far below that.  The two genuinely transcendental computations
  (`math.Log(u) * factor` in the dynamic threshold and the statistical
  threshold formula) are embedded as opaque integer-valued parameters of the
  configuration, and the Shannon-entropy comparison is embedded by an exact
  integer-power equivalence derived at `entropyExceeds`.
* Go maps are embedded as association lists.  Where a map iteration order is
  semantically relevant (the iteration over the length buckets in
  `CreateInitialGroups`, whose order can change which `LogGroup` survives a
  key collision) the order is an explicit parameter; all other map
  iterations are embedded in first-insertion order, which only affects the
  order, never the multiset, of emitted results.
* `sync.Pool` recycling (`GetNode`, `GetStringMap`, ...) is embedded as
  fresh allocation; the pools reset every field that is subsequently read.
* The parallel path (`processGroupsParallel`) runs the identical per-group
  code (`BuildTreeForGroup` + `GenerateTemplatesFromTree`) with only the
  concatenation order of the per-group result lists unspecified; the claims
  are stated on multisets of results, and all concrete inputs evaluated here
  are below the default `ParallelProcessingThreshold`, so the sequential
  path is the one embedded.
-/

namespace Brain

/-! ## Character and string helpers -/

/-- ASCII decimal digit, the class `ch >= '0' && ch <= '9'` used throughout
the Go source. -/
def isDigitCh (c : Char) : Bool := '0' ≤ c && c ≤ '9'

/-- ASCII letter, the class `(ch >= 'a' && ch <= 'z') || (ch >= 'A' && ch <= 'Z')`. -/
def isLetterCh (c : Char) : Bool := ('a' ≤ c && c ≤ 'z') || ('A' ≤ c && c ≤ 'Z')

/-- Go `unicode.IsSpace`: the white-space characters recognised by
`strings.Fields`. -/
def goIsSpace (c : Char) : Bool :=
  c = ' ' || c = '\t' || c = '\n' || (c.val = 11) || (c.val = 12) || c = '\r' ||
  c.val = 0x85 || c.val = 0xA0 || c.val = 0x1680 ||
  (0x2000 ≤ c.val && c.val ≤ 0x200A) || c.val = 0x2028 || c.val = 0x2029 ||
  c.val = 0x202F || c.val = 0x205F || c.val = 0x3000

/-- RE2's `\s` class: `[\t\n\f\r ]` (ASCII only, no vertical tab). -/
def re2Space (c : Char) : Bool :=
  c = ' ' || c = '\t' || c = '\n' || (c.val = 12) || c = '\r'

/-- Go `len(s)`: the UTF-8 byte length of a string. -/
def goLen (s : String) : Nat := s.toList.foldl (fun n c => n + c.utf8Size) 0

/-- Number of runes of `s` satisfying `p` (a `for _, ch := range s` counter). -/
def countCh (p : Char → Bool) (s : String) : Nat := (s.toList.filter p).length

/-- Split a list of characters at delimiters, dropping empty fields.  This is
`strings.Fields` generalised to an arbitrary delimiter class.  The recursion
is structural on a fuel argument so that the kernel can evaluate it; every
step consumes at least one character, so fuel `length + 1` is exact. -/
def splitFields (isDelim : Char → Bool) : Nat → List Char → List (List Char)
  | 0, _ => []
  | _, [] => []
  | fuel + 1, c :: rest =>
    if isDelim c then splitFields isDelim fuel rest
    else
      (c :: rest.takeWhile (fun d => !isDelim d)) ::
        splitFields isDelim fuel (rest.dropWhile (fun d => !isDelim d))

/-- `strings.Fields`-style split returning strings. -/
def fieldsBy (isDelim : Char → Bool) (s : String) : List String :=
  (splitFields isDelim (s.toList.length + 1) s.toList).map fun cs => String.mk cs

/-! ## A small regular-expression engine

The Go source compiles a fixed set of regular expressions with
`regexp.MustCompile` (RE2 with Perl leftmost-first matching semantics).  All
of them are built from character classes, literals, concatenation,
alternation, bounded/unbounded greedy repetition and optional groups; the
engine below covers exactly those constructs.  `reMatches` returns the list
of possible remainders after matching a prefix, in Perl backtracking
priority order (greedy first), so the head of the list corresponds to the
match RE2 reports. -/

inductive RE : Type where
  /-- single character from a class -/
  | cls (p : Char → Bool) : RE
  /-- empty string -/
  | eps : RE
  /-- concatenation -/
  | seq (a b : RE) : RE
  /-- alternation, left preferred -/
  | alt (a b : RE) : RE
  /-- greedy repetition: at least `lo`, at most `hi` (none = unbounded) -/
  | rep (a : RE) (lo : Nat) (hi : Option Nat) : RE

/-- Literal character. -/
def RE.ch (c : Char) : RE := RE.cls (· = c)

/-- Literal string. -/
def RE.str (s : String) : RE := s.toList.foldr (fun c r => RE.seq (RE.ch c) r) RE.eps

/-- `r?` (greedy option). -/
def RE.opt (a : RE) : RE := RE.alt a RE.eps

/-- `r{n}`. -/
def RE.exactly (a : RE) (n : Nat) : RE := RE.rep a n (some n)

/-- Sequence of a list of regular expressions. -/
def RE.cat (l : List RE) : RE := l.foldr RE.seq RE.eps

/-- Backtracking matcher.  `reMatches fuel re s` returns the remainders of
`s` after every way of matching a prefix of `s` against `re`, in greedy
(Perl) priority order.  The recursion is structural on `fuel` so the kernel
can evaluate it; between two character consumptions every call descends
into a structurally smaller expression (a repetition step is only taken
when its body consumed at least one character — none of the embedded
patterns has a nullable repetition body), so `reFuel` below is always
sufficient fuel. -/
def reMatches : Nat → RE → List Char → List (List Char)
  | 0, _, _ => []
  | _ + 1, RE.cls p, c :: s => if p c then [s] else []
  | _ + 1, RE.cls _, [] => []
  | _ + 1, RE.eps, s => [s]
  | fuel + 1, RE.seq a b, s => (reMatches fuel a s).flatMap (reMatches fuel b)
  | fuel + 1, RE.alt a b, s => reMatches fuel a s ++ reMatches fuel b s
  | fuel + 1, RE.rep a lo hi, s =>
    if hi = some 0 then [s]
    else
      let deeper := ((reMatches fuel a s).filter (fun t => t.length < s.length)).flatMap
        (fun t => reMatches fuel (RE.rep a (lo - 1) (hi.map (· - 1))) t)
      if lo = 0 then deeper ++ [s] else deeper

/-- Structural size of a regular expression, used to budget the matcher's
fuel: along any backtracking path, the repetition rule fires at most once per
character consumed plus once per syntactically nested repetition, so
`(len + 1) * (size + 1)` fuel is always sufficient. -/
def reSize : RE → Nat
  | RE.cls _ => 1
  | RE.eps => 1
  | RE.seq a b => reSize a + reSize b + 1
  | RE.alt a b => reSize a + reSize b + 1
  | RE.rep a _ _ => reSize a + 1

/-- Fuel that makes `reMatches` exact for the given input. -/
def reFuel (re : RE) (n : Nat) : Nat := (n + 1) * (reSize re + 1)

/-- Whether `re` (an implicitly `^...$`-anchored pattern) matches the whole
string: Go `regexp.MatchString` for the anchored patterns of the source. -/
def reFull (re : RE) (s : String) : Bool :=
  (reMatches (reFuel re s.length) re s.toList).any (· = [])

/-- Leftmost match search for an unanchored pattern: returns
`some (prefix, match, suffix)` for the leftmost, greedily chosen match, like
RE2's `FindString`.  Used only by the datetime-protection pass. -/
def reFindLeftmost (re : RE) : List Char → Option (List Char × List Char × List Char)
  | [] =>
    match (reMatches (reFuel re 0) re []).head? with
    | some t => some ([], [], t)
    | none => none
  | c :: s =>
    match (reMatches (reFuel re (s.length + 1)) re (c :: s)).head? with
    | some t => some ([], (c :: s).take ((c :: s).length - t.length), t)
    | none =>
      match reFindLeftmost re s with
      | some (pre, m, suf) => some (c :: pre, m, suf)
      | none => none

/-- Go `Regexp.ReplaceAllStringFunc`: replace every (leftmost, non-empty,
non-overlapping) match of `re` in `s` by `f` applied to the match. -/
def reReplaceAll (re : RE) (f : String → String) (s : String) : String :=
  String.mk (go s.toList s.length)
where
  go (cs : List Char) : Nat → List Char
    | 0 => cs
    | fuel + 1 =>
      match reFindLeftmost re cs with
      | none => cs
      | some (pre, m, suf) =>
        if m.isEmpty then cs
        else pre ++ (f (String.mk m)).toList ++ go suf fuel

/-! ## Datetime protection (`preprocessDateTimePatterns`)

The preprocessor first replaces delimiter characters inside datetime-shaped
substrings by placeholder strings so that a datetime survives tokenization
as one token (`part_011`, `dateTimePatterns` and
`preprocessDateTimePatterns`). -/

/-- `[A-Z]` -/
def isUpperCh (c : Char) : Bool := 'A' ≤ c && c ≤ 'Z'

/-- `[a-z]` -/
def isLowerCh (c : Char) : Bool := 'a' ≤ c && c ≤ 'z'

/-- `\d{n}` -/
def dN (n : Nat) : RE := RE.exactly (RE.cls isDigitCh) n

/-- `\d{1,2}` -/
def d12 : RE := RE.rep (RE.cls isDigitCh) 1 (some 2)

/-- `\d{2}:\d{2}:\d{2}` -/
def hhmmss : RE := RE.cat [dN 2, RE.ch ':', dN 2, RE.ch ':', dN 2]

/-- ` +` -/
def spacePlus : RE := RE.rep (RE.ch ' ') 1 none

/-- The ten pre-compiled datetime patterns of `dateTimePatterns`, in source
order. -/
def dateTimePatterns : List RE :=
  [ -- `\[\d{1,2}-[A-Z][a-z]{2}-\d{4} \d{2}:\d{2}:\d{2}\]`
    RE.cat [RE.ch '[', d12, RE.ch '-', RE.cls isUpperCh, RE.exactly (RE.cls isLowerCh) 2,
            RE.ch '-', dN 4, RE.ch ' ', hhmmss, RE.ch ']'],
    -- `\d{4}-\d{2}-\d{2} \d{2}:\d{2}:\d{2}\.\d{3}`
    RE.cat [dN 4, RE.ch '-', dN 2, RE.ch '-', dN 2, RE.ch ' ', hhmmss, RE.ch '.', dN 3],
    -- `\d{4}-\d{2}-\d{2} \d{2}:\d{2}:\d{2}`
    RE.cat [dN 4, RE.ch '-', dN 2, RE.ch '-', dN 2, RE.ch ' ', hhmmss],
    -- `\d{2}/\d{2}/\d{4} \d{2}:\d{2}:\d{2}` (european_datetime)
    RE.cat [dN 2, RE.ch '/', dN 2, RE.ch '/', dN 4, RE.ch ' ', hhmmss],
    -- `\d{2}/\d{2}/\d{4} \d{2}:\d{2}:\d{2}` (us_datetime, identical source)
    RE.cat [dN 2, RE.ch '/', dN 2, RE.ch '/', dN 4, RE.ch ' ', hhmmss],
    -- `\d{4}/\d{2}/\d{2} \d{2}:\d{2}:\d{2}`
    RE.cat [dN 4, RE.ch '/', dN 2, RE.ch '/', dN 2, RE.ch ' ', hhmmss],
    -- `[A-Z][a-z]{2} +\d{1,2} +\d{2}:\d{2}:\d{2}`
    RE.cat [RE.cls isUpperCh, RE.exactly (RE.cls isLowerCh) 2, spacePlus, d12, spacePlus, hhmmss],
    -- `[A-Z][a-z]{2} +\d{1,2} +\d{4} +\d{2}:\d{2}:\d{2}`
    RE.cat [RE.cls isUpperCh, RE.exactly (RE.cls isLowerCh) 2, spacePlus, d12, spacePlus,
            dN 4, spacePlus, hhmmss],
    -- `\d{1,2}/[A-Z][a-z]{2}/\d{4} \d{2}:\d{2}:\d{2}`
    RE.cat [d12, RE.ch '/', RE.cls isUpperCh, RE.exactly (RE.cls isLowerCh) 2, RE.ch '/',
            dN 4, RE.ch ' ', hhmmss],
    -- `\d{2}\.\d{2}\.\d{4} \d{2}:\d{2}:\d{2}`
    RE.cat [dN 2, RE.ch '.', dN 2, RE.ch '.', dN 4, RE.ch ' ', hhmmss] ]

/-- Replace the delimiter characters of a matched datetime by the placeholder
strings `_DTSPACE_`, `_DTCOLON_`, `_DTCOMMA_`, `_DTEQUAL_`.  The Go source
applies four successive `strings.ReplaceAll` calls; since no placeholder
contains a later-replaced character, a single character-wise pass is
equivalent. -/
def protectDelims (s : String) : String :=
  String.mk (s.toList.flatMap fun c =>
    if c = ' ' then "_DTSPACE_".toList
    else if c = ':' then "_DTCOLON_".toList
    else if c = ',' then "_DTCOMMA_".toList
    else if c = '=' then "_DTEQUAL_".toList
    else [c])

/-- `preprocessDateTimePatterns`: apply each datetime pattern in order,
protecting every match. -/
def preprocessDateTimePatterns (line : String) : String :=
  dateTimePatterns.foldl (fun acc re => reReplaceAll re protectDelims acc) line

/-- Go `strings.ReplaceAll` on character lists (left-to-right,
non-overlapping; fuel-structural, every step consumes at least one
character). -/
def replaceSub (pat rep : List Char) : Nat → List Char → List Char
  | 0, cs => cs
  | _, [] => []
  | fuel + 1, c :: rest =>
    if !pat.isEmpty && pat.isPrefixOf (c :: rest) then
      rep ++ replaceSub pat rep fuel ((c :: rest).drop pat.length)
    else
      c :: replaceSub pat rep fuel rest

/-- Go `strings.ReplaceAll` on strings. -/
def goReplaceAll (s pat rep : String) : String :=
  String.mk (replaceSub pat.toList rep.toList (s.toList.length + 1) s.toList)

/-- Restore the protected datetime delimiters inside one token
(`splitWithoutFiltering`, restore loop). -/
def restoreDT (w : String) : String :=
  let w := goReplaceAll w "_DTSPACE_" " "
  let w := goReplaceAll w "_DTCOLON_" ":"
  let w := goReplaceAll w "_DTCOMMA_" ","
  goReplaceAll w "_DTEQUAL_" "="

/-- `splitWithoutFiltering`: replace every delimiter-regex match by a space,
split on white-space runs (`strings.Fields`), restore protected datetimes.
The delimiter regex is embedded as a character class `isDelim`; every
configuration exercised by the claims (`[\s,:=]` and `\s+`) is a character
class, for which "replace each match by a space, then split on white space"
is exactly "split at every character of the class or of `unicode.IsSpace`,
dropping empty fields". -/
def splitWithoutFiltering (isDelim : Char → Bool) (line : String) : List String :=
  (fieldsBy (fun c => isDelim c || goIsSpace c) line).map restoreDT

/-! ## Configuration and preprocessor -/

/-- A compiled common-variable pattern: its regex source text (used by the
specificity tie-break) and its match predicate (`regexp.MatchString`; every
pattern of the source is `^...$`-anchored, so matching is whole-token). -/
structure Pattern where
  source : String
  matchString : String → Bool

/-- The engine configuration after `New` has filled the defaults (`New` is
idempotent: re-applying it to an already-defaulted configuration, as
`tryReparseWithConfig` does, changes nothing).  Two `float64` fields are
embedded as the integer-valued functions the code computes from them:
`dynLnRaw u` stands for `int(math.Log(float64(u)) * DynamicThresholdFactor)`
and `statRaw u` for `calculateStatisticalThreshold(u)` before clamping. -/
structure Config where
  /-- `Delimiters`, as the character class the regex denotes. -/
  isDelimiter : Char → Bool
  /-- `CommonVariables` (compiled). -/
  commonVariables : List Pattern
  /-- `ChildBranchThreshold` -/
  childBranchThreshold : Int
  /-- `Weight`, as the exact rational `weightNum / weightDen`
  (`weightDen > 0`) -/
  weightNum : Nat
  /-- denominator of `Weight` -/
  weightDen : Nat
  /-- `UseDynamicThreshold` -/
  useDynamicThreshold : Bool
  /-- `int(math.Log(float64 u) * DynamicThresholdFactor)` -/
  dynLnRaw : Nat → Int
  /-- `calculateStatisticalThreshold u` (the float formula, before clamping) -/
  statRaw : Nat → Int
  /-- `UseEnhancedPostProcessing` -/
  useEnhancedPostProcessing : Bool
  /-- `UseStatisticalThreshold` -/
  useStatisticalThreshold : Bool
  /-- `ParallelProcessingThreshold` -/
  parallelProcessingThreshold : Nat
  /-- `EntropyThreshold`, as the exact rational
  `entropyThresholdNum / entropyThresholdDen` (`entropyThresholdDen > 0`) -/
  entropyThresholdNum : Int
  /-- denominator of `EntropyThreshold` -/
  entropyThresholdDen : Nat
  /-- `MinEntropyLength` -/
  minEntropyLength : Nat
  /-- `MaxConsecutiveWildcards` -/
  maxConsecutiveWildcards : Nat
  /-- `MinContentWordsRatio`, as the exact rational
  `minContentWordsRatioNum / minContentWordsRatioDen` -/
  minContentWordsRatioNum : Nat
  /-- denominator of `MinContentWordsRatio` -/
  minContentWordsRatioDen : Nat
  /-- `TimestampMinDigits` -/
  timestampMinDigits : Nat
  /-- `TimestampMinSeparators` -/
  timestampMinSeparators : Nat
  /-- internal `isReparsing` flag -/
  isReparsing : Bool

/-- `isNumericVariable`: at least 30% of the bytes of the token are ASCII
digits.  The Go source counts digit runes but divides by `len(word)`, the
byte length; ASCII digits occupy one byte each, so the rune count of digits
equals their byte count.  `float64(d)/float64(l) >= 0.3` is embedded exactly
as `10*d ≥ 3*l`. -/
def isNumericVariable (word : String) : Bool :=
  if goLen word = 0 then false
  else 10 * countCh isDigitCh word ≥ 3 * goLen word

/-- `countSpecificChars`: weighted count of literal characters in a regex
source string (escaped characters count 1, datetime separators count 2,
letters count 1, metacharacters count 0). -/
def countSpecificChars (pattern : String) : Nat :=
  go pattern.toList false
where
  go : List Char → Bool → Nat
    | [], _ => 0
    | c :: rest, escaped =>
      if escaped then 1 + go rest false
      else if c = '\\' then go rest true
      else if c = '^' || c = '$' || c = '.' || c = '*' || c = '+' || c = '?' ||
              c = '[' || c = ']' || c = '(' || c = ')' || c = '\x7b' || c = '\x7d' ||
              c = '|' then go rest false
      else if c = '-' || c = ':' || c = '/' || c = ' ' || c = 'T' || c = 'Z' then
        2 + go rest false
      else if isLetterCh c then 1 + go rest false
      else go rest false

/-- `Regexp.FindString` for the (all `^...$`-anchored) common-variable
patterns: the whole word on a match, `""` otherwise. -/
def patternFind (p : Pattern) (word : String) : String :=
  if p.matchString word then word else ""

/-- `isBetterMatch`: is `newP` a more specific match than `curP` for `word`? -/
def isBetterMatch (newP curP : Pattern) (word : String) : Bool :=
  let newSpecificity := countSpecificChars newP.source
  let curSpecificity := countSpecificChars curP.source
  if newSpecificity > curSpecificity then true
  else if newSpecificity = curSpecificity then
    let newMatch := patternFind newP word
    let curMatch := patternFind curP word
    if goLen newMatch > goLen curMatch then true
    else if goLen newMatch = goLen curMatch && goLen newP.source > goLen curP.source then true
    else false
  else false

/-- The `bestMatch` accumulation loop of `filterCommonVariables`,
parameterised by the tie-break relation (the source uses `isBetterMatch`;
claim C7 is proved for every tie-break). -/
def bestMatchFold (better : Pattern → Pattern → String → Bool)
    (patterns : List Pattern) (word : String) : Option Pattern :=
  patterns.foldl
    (fun best p =>
      if p.matchString word then
        match best with
        | none => some p
        | some b => if better p b word then some p else some b
      else best)
    none

/-- `filterCommonVariables` with an explicit tie-break relation. -/
def filterCommonVariablesWith (better : Pattern → Pattern → String → Bool)
    (patterns : List Pattern) (word : String) : String :=
  if (bestMatchFold better patterns word).isSome then "<*>"
  else if isNumericVariable word then "<*>"
  else word

/-- `filterCommonVariables`: mask a token that matches a common-variable
pattern or is numeric-heavy. -/
def filterCommonVariables (patterns : List Pattern) (word : String) : String :=
  filterCommonVariablesWith isBetterMatch patterns word

/-- `Word`: one token with its column position and the global frequency of
its pre-masking surface form. -/
structure Word where
  value : String
  position : Nat
  frequency : Nat
deriving DecidableEq, Repr

/-- `LogMessage`: one preprocessed log line. -/
structure LogMessage where
  id : Nat
  content : String
  words : List Word
deriving DecidableEq, Repr

/-- Occurrences of `w` among all raw tokens (the `wordFrequencies` map). -/
def wordFrequency (rawLogs : List (List String)) (w : String) : Nat :=
  (rawLogs.flatMap id).count w

/-- `PreprocessLogs`: datetime protection, raw split, global frequency
count, masking; IDs are the 0-based input indices. -/
def preprocessLogs (cfg : Config) (logLines : List String) : List LogMessage :=
  let rawSplit := logLines.map fun line =>
    splitWithoutFiltering cfg.isDelimiter (preprocessDateTimePatterns line)
  (List.zip (List.range logLines.length) (List.zip logLines rawSplit)).map
    fun (i, line, rawWords) =>
      { id := i
        content := line
        words := (List.zip (List.range rawWords.length) rawWords).map fun (j, rawWord) =>
          { value := filterCommonVariables cfg.commonVariables rawWord
            position := j
            frequency := wordFrequency rawSplit rawWord } }

/-! ## Default common-variable patterns (`getDefaultCommonVariables`) -/

/-- `[0-9a-fA-F]` -/
def isHexCh (c : Char) : Bool :=
  isDigitCh c || ('a' ≤ c && c ≤ 'f') || ('A' ≤ c && c ≤ 'F')

/-- `[a-zA-Z0-9]` -/
def isAlnumCh (c : Char) : Bool := isLetterCh c || isDigitCh c

/-- `[a-zA-Z0-9.-]` -/
def isHostCh (c : Char) : Bool := isAlnumCh c || c = '.' || c = '-'

/-- `[a-zA-Z0-9._-]` -/
def isFileCh (c : Char) : Bool := isAlnumCh c || c = '.' || c = '_' || c = '-'

/-- `[a-zA-Z0-9._%+-]` -/
def isEmailLocalCh (c : Char) : Bool :=
  isAlnumCh c || c = '.' || c = '_' || c = '%' || c = '+' || c = '-'

/-- `[^\\/:*?"<>|]` -/
def isWinPathCh (c : Char) : Bool :=
  !(c = '\\' || c = '/' || c = ':' || c = '*' || c = '?' || c = '"' || c = '<' ||
    c = '>' || c = '|')

/-- `(Jan|Feb|...|Dec)` -/
def reMonth : RE :=
  ["Jan", "Feb", "Mar", "Apr", "May", "Jun", "Jul", "Aug", "Sep", "Oct",
   "Nov"].foldr (fun m r => RE.alt (RE.str m) r) (RE.str "Dec")

/-- `\[\d{1,2}-[A-Z][a-z]{2}-\d{4}` (the shared prefix of the bracket-date
patterns). -/
def reBracketDatePrefix : RE :=
  RE.cat [RE.ch '[', d12, RE.ch '-', RE.cls isUpperCh, RE.exactly (RE.cls isLowerCh) 2,
          RE.ch '-', dN 4]

/-- The default `CommonVariables` map, in source order.  Each entry carries
the Go regex source (for the specificity tie-break) and the transliterated
matcher; all patterns are `^...$`-anchored, so `MatchString` is whole-token
matching. -/
def getDefaultCommonVariables : List Pattern :=
  [ ⟨"^\\d\x7b4\x7d-\\d\x7b2\x7d-\\d\x7b2\x7dT\\d\x7b2\x7d:\\d\x7b2\x7d:\\d\x7b2\x7d\\.\\d\x7b3\x7dZ?$",
     reFull (RE.cat [dN 4, RE.ch '-', dN 2, RE.ch '-', dN 2, RE.ch 'T', hhmmss,
                     RE.ch '.', dN 3, RE.opt (RE.ch 'Z')])⟩,
    ⟨"^\\d\x7b4\x7d-\\d\x7b2\x7d-\\d\x7b2\x7dT\\d\x7b2\x7d:\\d\x7b2\x7d:\\d\x7b2\x7dZ?$",
     reFull (RE.cat [dN 4, RE.ch '-', dN 2, RE.ch '-', dN 2, RE.ch 'T', hhmmss,
                     RE.opt (RE.ch 'Z')])⟩,
    ⟨"^\\d\x7b4\x7d-\\d\x7b2\x7d-\\d\x7b2\x7d \\d\x7b2\x7d:\\d\x7b2\x7d:\\d\x7b2\x7d(\\.\\d\x7b3\x7d)?$",
     reFull (RE.cat [dN 4, RE.ch '-', dN 2, RE.ch '-', dN 2, RE.ch ' ', hhmmss,
                     RE.opt (RE.seq (RE.ch '.') (dN 3))])⟩,
    ⟨"^\\d\x7b2\x7d/\\d\x7b2\x7d/\\d\x7b4\x7d \\d\x7b2\x7d:\\d\x7b2\x7d:\\d\x7b2\x7d$",
     reFull (RE.cat [dN 2, RE.ch '/', dN 2, RE.ch '/', dN 4, RE.ch ' ', hhmmss])⟩,
    ⟨"^\\d\x7b2\x7d/\\d\x7b2\x7d/\\d\x7b4\x7d \\d\x7b2\x7d:\\d\x7b2\x7d:\\d\x7b2\x7d$",
     reFull (RE.cat [dN 2, RE.ch '/', dN 2, RE.ch '/', dN 4, RE.ch ' ', hhmmss])⟩,
    ⟨"^[A-Z][a-z]\x7b2\x7d \\d\x7b1,2\x7d \\d\x7b2\x7d:\\d\x7b2\x7d:\\d\x7b2\x7d$",
     reFull (RE.cat [RE.cls isUpperCh, RE.exactly (RE.cls isLowerCh) 2, RE.ch ' ', d12,
                     RE.ch ' ', hhmmss])⟩,
    ⟨"^\\d\x7b4\x7d-\\d\x7b2\x7d-\\d\x7b2\x7d$",
     reFull (RE.cat [dN 4, RE.ch '-', dN 2, RE.ch '-', dN 2])⟩,
    ⟨"^\\d\x7b2\x7d/\\d\x7b2\x7d/\\d\x7b4\x7d$",
     reFull (RE.cat [dN 2, RE.ch '/', dN 2, RE.ch '/', dN 4])⟩,
    ⟨"^\\d\x7b2\x7d/\\d\x7b2\x7d/\\d\x7b4\x7d$",
     reFull (RE.cat [dN 2, RE.ch '/', dN 2, RE.ch '/', dN 4])⟩,
    ⟨"^\\d\x7b2\x7d\\.\\d\x7b2\x7d\\.\\d\x7b4\x7d$",
     reFull (RE.cat [dN 2, RE.ch '.', dN 2, RE.ch '.', dN 4])⟩,
    ⟨"^\\d\x7b4\x7d/\\d\x7b2\x7d/\\d\x7b2\x7d$",
     reFull (RE.cat [dN 4, RE.ch '/', dN 2, RE.ch '/', dN 2])⟩,
    ⟨"^\\d\x7b1,2\x7d-[A-Z][a-z]\x7b2\x7d-\\d\x7b4\x7d$",
     reFull (RE.cat [d12, RE.ch '-', RE.cls isUpperCh, RE.exactly (RE.cls isLowerCh) 2,
                     RE.ch '-', dN 4])⟩,
    ⟨"^\\d\x7b2\x7d:\\d\x7b2\x7d:\\d\x7b2\x7d$", reFull hhmmss⟩,
    ⟨"^\\d\x7b2\x7d:\\d\x7b2\x7d:\\d\x7b2\x7d\\.\\d\x7b3\x7d$",
     reFull (RE.cat [hhmmss, RE.ch '.', dN 3])⟩,
    ⟨"^\\d\x7b2\x7d:\\d\x7b2\x7d$", reFull (RE.cat [dN 2, RE.ch ':', dN 2])⟩,
    ⟨"^\\d\x7b13\x7d$", reFull (dN 13)⟩,
    ⟨"^\\d\x7b10\x7d$", reFull (dN 10)⟩,
    ⟨"^\\d\x7b1,3\x7d\\.\\d\x7b1,3\x7d\\.\\d\x7b1,3\x7d\\.\\d\x7b1,3\x7d$",
     reFull (RE.cat [RE.rep (RE.cls isDigitCh) 1 (some 3), RE.ch '.',
                     RE.rep (RE.cls isDigitCh) 1 (some 3), RE.ch '.',
                     RE.rep (RE.cls isDigitCh) 1 (some 3), RE.ch '.',
                     RE.rep (RE.cls isDigitCh) 1 (some 3)])⟩,
    ⟨"^\\d\x7b1,3\x7d\\.\\d\x7b1,3\x7d\\.\\d\x7b1,3\x7d\\.\\d\x7b1,3\x7d:\\d+$",
     reFull (RE.cat [RE.rep (RE.cls isDigitCh) 1 (some 3), RE.ch '.',
                     RE.rep (RE.cls isDigitCh) 1 (some 3), RE.ch '.',
                     RE.rep (RE.cls isDigitCh) 1 (some 3), RE.ch '.',
                     RE.rep (RE.cls isDigitCh) 1 (some 3), RE.ch ':',
                     RE.rep (RE.cls isDigitCh) 1 none])⟩,
    ⟨"^([0-9a-fA-F]\x7b0,4\x7d:)\x7b7\x7d[0-9a-fA-F]\x7b0,4\x7d$",
     reFull (RE.cat [RE.exactly (RE.seq (RE.rep (RE.cls isHexCh) 0 (some 4)) (RE.ch ':')) 7,
                     RE.rep (RE.cls isHexCh) 0 (some 4)])⟩,
    ⟨"^([0-9A-Fa-f]\x7b2\x7d[:-])\x7b5\x7d([0-9A-Fa-f]\x7b2\x7d)$",
     reFull (RE.cat [RE.exactly (RE.seq (RE.exactly (RE.cls isHexCh) 2)
                       (RE.cls fun c => c = ':' || c = '-')) 5,
                     RE.exactly (RE.cls isHexCh) 2])⟩,
    ⟨"^[a-zA-Z0-9.-]+:\\d+$",
     reFull (RE.cat [RE.rep (RE.cls isHostCh) 1 none, RE.ch ':',
                     RE.rep (RE.cls isDigitCh) 1 none])⟩,
    ⟨"^\\d+[KMGT]?B$",
     reFull (RE.cat [RE.rep (RE.cls isDigitCh) 1 none,
                     RE.opt (RE.cls fun c => c = 'K' || c = 'M' || c = 'G' || c = 'T'),
                     RE.ch 'B'])⟩,
    ⟨"^(/[a-zA-Z0-9._-]+)+/?$",
     reFull (RE.cat [RE.rep (RE.seq (RE.ch '/') (RE.rep (RE.cls isFileCh) 1 none)) 1 none,
                     RE.opt (RE.ch '/')])⟩,
    ⟨"^[A-Za-z]:\\\\(\\\\[^\\\\/:*?\"<>|]+)*\\\\?$",
     reFull (RE.cat [RE.cls isLetterCh, RE.ch ':', RE.ch '\\',
                     RE.rep (RE.seq (RE.ch '\\') (RE.rep (RE.cls isWinPathCh) 1 none)) 0 none,
                     RE.opt (RE.ch '\\')])⟩,
    ⟨"^[a-zA-Z0-9._-]+\\.[a-zA-Z]\x7b2,4\x7d$",
     reFull (RE.cat [RE.rep (RE.cls isFileCh) 1 none, RE.ch '.',
                     RE.rep (RE.cls isLetterCh) 2 (some 4)])⟩,
    ⟨"^https?://[^\\s]+$",
     reFull (RE.cat [RE.str "http", RE.opt (RE.ch 's'), RE.str "://",
                     RE.rep (RE.cls fun c => !re2Space c) 1 none])⟩,
    ⟨"^[a-zA-Z0-9._%+-]+@[a-zA-Z0-9.-]+\\.[a-zA-Z]\x7b2,\x7d$",
     reFull (RE.cat [RE.rep (RE.cls isEmailLocalCh) 1 none, RE.ch '@',
                     RE.rep (RE.cls isHostCh) 1 none, RE.ch '.',
                     RE.rep (RE.cls isLetterCh) 2 none])⟩,
    ⟨"^0x[a-fA-F0-9]+$",
     reFull (RE.cat [RE.str "0x", RE.rep (RE.cls isHexCh) 1 none])⟩,
    ⟨"^[a-fA-F0-9]\x7b8\x7d-[a-fA-F0-9]\x7b4\x7d-[a-fA-F0-9]\x7b4\x7d-[a-fA-F0-9]\x7b4\x7d-[a-fA-F0-9]\x7b12\x7d$",
     reFull (RE.cat [RE.exactly (RE.cls isHexCh) 8, RE.ch '-',
                     RE.exactly (RE.cls isHexCh) 4, RE.ch '-',
                     RE.exactly (RE.cls isHexCh) 4, RE.ch '-',
                     RE.exactly (RE.cls isHexCh) 4, RE.ch '-',
                     RE.exactly (RE.cls isHexCh) 12])⟩,
    ⟨"^blk_[-]?\\d+$",
     reFull (RE.cat [RE.str "blk_", RE.opt (RE.ch '-'),
                     RE.rep (RE.cls isDigitCh) 1 none])⟩,
    ⟨"^[a-zA-Z0-9]\x7b16,\x7d$", reFull (RE.rep (RE.cls isAlnumCh) 16 none)⟩,
    ⟨"^v?\\d+\\.\\d+(\\.\\d+)?(-[a-zA-Z0-9._-]+)?$",
     reFull (RE.cat [RE.opt (RE.ch 'v'), RE.rep (RE.cls isDigitCh) 1 none, RE.ch '.',
                     RE.rep (RE.cls isDigitCh) 1 none,
                     RE.opt (RE.seq (RE.ch '.') (RE.rep (RE.cls isDigitCh) 1 none)),
                     RE.opt (RE.seq (RE.ch '-') (RE.rep (RE.cls isFileCh) 1 none))])⟩,
    ⟨"^\\d\x7b1,3\x7d%$",
     reFull (RE.seq (RE.rep (RE.cls isDigitCh) 1 (some 3)) (RE.ch '%'))⟩,
    ⟨"^0x[0-9a-fA-F]+$",
     reFull (RE.cat [RE.str "0x", RE.rep (RE.cls isHexCh) 1 none])⟩,
    ⟨"^(Jan|Feb|Mar|Apr|May|Jun|Jul|Aug|Sep|Oct|Nov|Dec)$", reFull reMonth⟩,
    ⟨"^\\[\\d\x7b1,2\x7d-[A-Z][a-z]\x7b2\x7d-\\d\x7b4\x7d$", reFull reBracketDatePrefix⟩,
    ⟨"^\\d\x7b2\x7d:\\d\x7b2\x7d:\\d\x7b2\x7d\\]$", reFull (RE.seq hhmmss (RE.ch ']'))⟩,
    ⟨"^\\[\\d\x7b1,2\x7d-[A-Z][a-z]\x7b2\x7d-\\d\x7b4\x7d \\d\x7b2\x7d:\\d\x7b2\x7d:\\d\x7b2\x7d\\]$",
     reFull (RE.cat [reBracketDatePrefix, RE.ch ' ', hhmmss, RE.ch ']'])⟩,
    ⟨"^\\d+$", reFull (RE.rep (RE.cls isDigitCh) 1 none)⟩ ]

/-! ## Grouping by Longest Common Pattern (`group.go`) -/

/-- `WordCombination`: the tokens of one log sharing one frequency level. -/
structure WordCombination where
  frequency : Nat
  words : List Word
deriving DecidableEq, Repr

/-- `LogPattern`: the selected LCP of a group. -/
structure LogPattern where
  words : List Word
  frequency : Nat
deriving DecidableEq, Repr

/-- `LogGroup`: a group of logs sharing token count and LCP key. -/
structure LogGroup where
  pattern : LogPattern
  logs : List LogMessage
deriving DecidableEq, Repr

/-- `WordCombination.Key` / `LogPattern.Key`: the literal key string
`"freq:<f>-pos:<p>,val:<v>|..."`. -/
def combinationKey (frequency : Nat) (words : List Word) : String :=
  "freq:" ++ toString frequency ++ "-" ++
    String.join (words.map fun w => "pos:" ++ toString w.position ++ ",val:" ++ w.value ++ "|")

/-- Append `x` to the entry of `k` (or create the entry at the end): the
association-list embedding of `m[k] = append(m[k], x)`. -/
def assocAppend {κ α : Type} [DecidableEq κ] :
    List (κ × List α) → κ → α → List (κ × List α)
  | [], k, x => [(k, [x])]
  | (k', xs) :: rest, k, x =>
    if k = k' then (k', xs ++ [x]) :: rest else (k', xs) :: assocAppend rest k x

/-- Group a list by a key, entries in first-occurrence order. -/
def groupByFn {κ α : Type} [DecidableEq κ] (key : α → κ) (xs : List α) :
    List (κ × List α) :=
  xs.foldl (fun acc x => assocAppend acc (key x) x) []

/-- Look up a key in an association list. -/
def assocFind {κ α : Type} [DecidableEq κ] (k : κ) : List (κ × α) → Option α
  | [] => none
  | (k', v) :: rest => if k = k' then some v else assocFind k rest

/-- Stable insertion sort by a total `le` test (elements equal under the
test keep their relative order). -/
def insertionSortBy {α : Type} (le : α → α → Bool) : List α → List α
  | [] => []
  | x :: rest => insertSorted x (insertionSortBy le rest)
where
  insertSorted (x : α) : List α → List α
    | [] => [x]
    | y :: ys => if le x y then x :: y :: ys else y :: insertSorted x ys

/-- `^\d+$` (grouping helper). -/
def reNumericP : RE := RE.rep (RE.cls isDigitCh) 1 none

/-- `^\d+\.\d+\.\d+\.\d+$` -/
def reIpP : RE :=
  RE.cat [reNumericP, RE.ch '.', reNumericP, RE.ch '.', reNumericP, RE.ch '.', reNumericP]

/-- `^[a-zA-Z]+_?\d+$` -/
def reIdP : RE :=
  RE.cat [RE.rep (RE.cls isLetterCh) 1 none, RE.opt (RE.ch '_'), reNumericP]

/-- `^\d+\s+\d+\s+\d+\s+\d+$` -/
def reChannelP : RE :=
  RE.cat [reNumericP, RE.rep (RE.cls re2Space) 1 none, reNumericP,
          RE.rep (RE.cls re2Space) 1 none, reNumericP,
          RE.rep (RE.cls re2Space) 1 none, reNumericP]

/-- `hasVariablePatterns`: more than half of the words look variable-like
(`float64(count)/float64(len) > 0.5` embedded as `2*count > len`). -/
def hasVariablePatterns (words : List Word) : Bool :=
  let variableCount := (words.filter fun w =>
    reFull reNumericP w.value || reFull reIpP w.value || reFull reIdP w.value ||
    reFull reChannelP w.value).length
  2 * variableCount > words.length

/-- `isTwoFrequencyVariableLog` over the frequency-level association list. -/
def isTwoFrequencyVariableLog (combos : List (Nat × List Word)) : Bool :=
  if combos.length ≠ 2 then false
  else combos.any fun fw => hasVariablePatterns fw.2

/-- `selectConstantCombinationFromTwoFrequency`: prefer the lower-frequency
level without variable-like words; fall back to the lower frequency. -/
def selectConstantCombinationFromTwoFrequency
    (combos : List (Nat × List Word)) : WordCombination :=
  let sorted := insertionSortBy (fun a b => a.1 ≤ b.1) combos
  match sorted.find? (fun fw => !hasVariablePatterns fw.2) with
  | some fw => ⟨fw.1, fw.2⟩
  | none =>
    match sorted with
    | [] => ⟨0, []⟩
    | fw :: _ => ⟨fw.1, fw.2⟩

/-- Total byte length of the token values (`calculateTotalTokenLength`). -/
def calculateTotalTokenLength (words : List Word) : Nat :=
  words.foldl (fun n w => n + goLen w.value) 0

/-- `findLongestWordCombination`: group the log's tokens by frequency level,
handle the two-level special case, otherwise pick — among the levels at or
above `maxFrequency * weight` — the level with the most tokens, tie-broken
by larger total token length, iterating levels in descending frequency
order; fall back to the highest level if none survives the threshold. -/
def findLongestWordCombination (cfg : Config) (log : LogMessage) : WordCombination :=
  let combos := groupByFn (fun w => w.frequency) log.words
  if combos.isEmpty then ⟨0, []⟩
  else if combos.length = 2 && isTwoFrequencyVariableLog combos then
    selectConstantCombinationFromTwoFrequency combos
  else
    let maxFrequency := combos.foldl (fun m fw => max m fw.1) 0
    -- `float64(freq) < float64(maxFrequency) * weight`, exactly:
    -- `freq * weightDen < maxFrequency * weightNum`
    let freqs := insertionSortBy (fun a b => b ≤ a) (combos.map (·.1))
    let best := freqs.foldl
      (fun (st : Nat × Nat × WordCombination) (freq : Nat) =>
        let (maxLen, maxTokenLength, longestCombo) := st
        if freq * cfg.weightDen < maxFrequency * cfg.weightNum then st
        else
          match assocFind freq combos with
          | none => st
          | some words =>
            let tokenLength := calculateTotalTokenLength words
            if words.length > maxLen ||
                (words.length = maxLen && tokenLength > maxTokenLength) then
              (words.length, tokenLength, ⟨freq, words⟩)
            else st)
      (0, 0, ⟨0, []⟩)
    if best.1 = 0 && freqs ≠ [] then
      match freqs with
      | [] => ⟨0, []⟩
      | f :: _ => ⟨f, (assocFind f combos).getD []⟩
    else best.2.2

/-- Replace the value at `k` in place, or append a new entry: the
association-list embedding of `m[k] = v`. -/
def assocReplace {κ α : Type} [DecidableEq κ] : List (κ × α) → κ → α → List (κ × α)
  | [], k, v => [(k, v)]
  | (k', v') :: rest, k, v =>
    if k = k' then (k, v) :: rest else (k', v') :: assocReplace rest k v

/-- One length bucket of `CreateInitialGroups`: group the bucket's logs by
LCP key, remembering the pattern of the first log carrying each key. -/
def groupBucketByPattern (cfg : Config) (bucket : List LogMessage) :
    List (String × LogGroup) :=
  bucket.foldl
    (fun acc log =>
      let lcp := findLongestWordCombination cfg log
      let key := combinationKey lcp.frequency lcp.words
      match assocFind key acc with
      | some g => assocReplace acc key ⟨g.pattern, g.logs ++ [log]⟩
      | none => acc ++ [(key, ⟨⟨lcp.words, lcp.frequency⟩, [log]⟩)])
    []

/-- The distinct token counts of the logs in first-occurrence order: the
canonical instantiation of the length-bucket iteration order. -/
def firstOccs {α : Type} [DecidableEq α] : List α → List α
  | [] => []
  | x :: rest => x :: (firstOccs rest).filter (· ≠ x)

/-- `CreateInitialGroups`.  `lenOrder` is the iteration order of the Go map
`logsByLength` (randomised map iteration; a permutation of the distinct
token counts).  The final map assignment `finalGroups[key] = ...` is a
replacement, so when two length buckets produce the same LCP key the bucket
processed later silently replaces — and thereby drops — the earlier one. -/
def createInitialGroups (cfg : Config) (lenOrder : List Nat)
    (logs : List LogMessage) : List (String × LogGroup) :=
  let byLength := groupByFn (fun l => l.words.length) logs
  lenOrder.foldl
    (fun finalGroups len =>
      match assocFind len byLength with
      | none => finalGroups
      | some bucket =>
        (groupBucketByPattern cfg bucket).foldl
          (fun fg kv => assocReplace fg kv.1 kv.2) finalGroups)
    []

/-- The distinct token counts of `logs` in first-occurrence order. -/
def defaultLenOrder (logs : List LogMessage) : List Nat :=
  firstOccs (logs.map fun l => l.words.length)

/-! ## Branch threshold (`calculateDynamicThreshold`) -/

/-- `calculateDynamicThreshold`: without the dynamic flag (or for a
non-positive count) the raw `ChildBranchThreshold` is returned unchanged;
with it, the statistical or logarithmic raw value is clamped to `[2, 10]`.
`cfg.dynLnRaw`/`cfg.statRaw` stand for the two float computations (see
`Config`). -/
def calculateDynamicThreshold (cfg : Config) (uniqueWordsCount : Nat) : Int :=
  if !cfg.useDynamicThreshold || uniqueWordsCount = 0 then
    cfg.childBranchThreshold
  else
    let dynamicThreshold : Int :=
      if cfg.useStatisticalThreshold then cfg.statRaw uniqueWordsCount
      else cfg.dynLnRaw uniqueWordsCount
    let d := if dynamicThreshold < 2 then 2 else dynamicThreshold
    if d > 10 then 10 else d

/-! ## Bidirectional tree construction (`BuildTreeForGroup`) -/

/-- A node of the child-direction tree (`Node`).  Children are an
association list in insertion order; `parentWords` is the per-subgroup
parent-column override table. -/
inductive Node : Type where
  | mk (value : String) (isVariable : Bool) (position : Nat)
       (parentWords : List String) (logs : List LogMessage)
       (children : List (String × Node)) : Node

/-- node value -/
def Node.value : Node → String
  | .mk v _ _ _ _ _ => v

/-- node variable flag -/
def Node.isVariable : Node → Bool
  | .mk _ iv _ _ _ _ => iv

/-- node column position -/
def Node.position : Node → Nat
  | .mk _ _ p _ _ _ => p

/-- per-subgroup parent overrides -/
def Node.parentWords : Node → List String
  | .mk _ _ _ pw _ _ => pw

/-- logs reaching the node -/
def Node.logs : Node → List LogMessage
  | .mk _ _ _ _ l _ => l

/-- child edges -/
def Node.children : Node → List (String × Node)
  | .mk _ _ _ _ _ c => c

/-- `BidirectionalTree` (the unused `LogGroups` field of the source, always
left empty by `BuildTreeForGroup`, is omitted). -/
structure BidirectionalTree where
  rootNodes : List Word
  parentDirection : List (Nat × Node)
  childDirectionRoot : Node
  parentColumns : List Nat
  rootPattern : LogPattern

/-- The masked values of column `pos` across `logs` (skipping logs with
fewer tokens, as every `if pos < len(log.Words)` guard does). -/
def columnValues (logs : List LogMessage) (pos : Nat) : List String :=
  logs.filterMap fun log => (log.words.get? pos).map (·.value)

/-- `countUniqueWordsInColumn`. -/
def countUniqueWordsInColumn (logs : List LogMessage) (position : Nat) : Nat :=
  (firstOccs (columnValues logs position)).length

/-- The `constantWord` accumulation: the first non-empty value seen. -/
def firstConstantWord (vals : List String) : String :=
  vals.foldl (fun acc w => if acc = "" then w else acc) ""

/-- `updateParentDirection` (Algorithm 2): one node per parent column,
variable iff the column has more than one distinct value in the group. -/
def updateParentDirection (logs : List LogMessage) (parentCols : List Nat) :
    List (Nat × Node) :=
  parentCols.map fun pos =>
    let vals := columnValues logs pos
    let isVar := (firstOccs vals).length > 1
    let constantWord := firstConstantWord vals
    (pos, Node.mk (if !isVar && constantWord ≠ "" then constantWord else "")
            isVar pos [] logs [])

/-- `iterativelyUpdateParentNodes`: recompute, for every parent column, the
constant/variable status within `subGroupLogs` and record it in the node's
`parentWords` table (`"<*>"` for variable, the constant value otherwise,
`""` elsewhere).  Fresh-allocation semantics: the table starts as
`len(subGroupLogs[0].Words)` empty strings. -/
def computeParentWords (parentCols : List Nat) (subGroupLogs : List LogMessage) :
    List String :=
  let w0 := match subGroupLogs with
    | [] => 0
    | l :: _ => l.words.length
  parentCols.foldl
    (fun pw parentPos =>
      let vals := columnValues subGroupLogs parentPos
      let isVar := (firstOccs vals).length > 1
      let constantWord := firstConstantWord vals
      if isVar then
        if pw.length > parentPos then
          let maxPos := subGroupLogs.foldl
            (fun m log => if log.words.length - 1 > m then log.words.length - 1 else m)
            parentPos
          (pw ++ List.replicate (maxPos + 1 - pw.length) "").set parentPos "<*>"
        else pw
      else if constantWord ≠ "" then
        (pw ++ List.replicate (parentPos + 1 - pw.length) "").set parentPos constantWord
      else pw)
    (List.replicate w0 "")

/-- The `wordsInColumn` partition of `updateChildDirection`: the logs of
`currentLogs` grouped by their masked value at the column (logs with fewer
tokens dropped), in first-occurrence order. -/
def partitionByColumn (currentLogs : List LogMessage) (pos : Nat) :
    List (String × List LogMessage) :=
  (currentLogs.filterMap fun log =>
      (log.words.get? pos).map fun w => (w.value, log)).foldl
    (fun acc vl => assocAppend acc vl.1 vl.2) []

/-- `updateChildDirection` (Algorithm 3), fuel-structural form: sort the
remaining child columns by distinct-value count ascending (the embedding
breaks the unspecified ties of `sort.Slice` stably by the ascending-position
input order), process the most constrained column: collapse to a single
`<*>` child when the distinct count strictly exceeds the threshold,
otherwise split into one constant child per value, running the iterative
parent reclassification on each.  Returns the children of the current node.
Each recursion step removes one column, so fuel `childCols.length` (used by
the wrapper `updateChildDirection`) is exact. -/
def updateChildDirectionFuel (cfg : Config) (parentCols : List Nat) :
    Nat → List LogMessage → List Nat → List (String × Node)
  | 0, _, _ => []
  | fuel + 1, currentLogs, childCols =>
    if childCols.isEmpty then []
    else
      match insertionSortBy
          (fun i j => countUniqueWordsInColumn currentLogs i ≤
                      countUniqueWordsInColumn currentLogs j) childCols with
      | [] => []
      | posToProcess :: remainingCols =>
        let wordsInColumn := partitionByColumn currentLogs posToProcess
        let uniqueWordsCount := wordsInColumn.length
        let threshold := calculateDynamicThreshold cfg uniqueWordsCount
        if (uniqueWordsCount : Int) > threshold then
          [("<*>", Node.mk "" true posToProcess [] currentLogs
              (updateChildDirectionFuel cfg parentCols fuel currentLogs remainingCols))]
        else
          wordsInColumn.map fun ws =>
            (ws.1, Node.mk ws.1 false posToProcess
              (computeParentWords parentCols ws.2) ws.2
              (updateChildDirectionFuel cfg parentCols fuel ws.2 remainingCols))

/-- `updateChildDirection` (Algorithm 3): the wrapper supplying exact fuel. -/
def updateChildDirection (cfg : Config) (parentCols : List Nat)
    (currentLogs : List LogMessage) (childCols : List Nat) :
    List (String × Node) :=
  updateChildDirectionFuel cfg parentCols childCols.length currentLogs childCols

/-- Column-max frequency (`maxFreq` loop of `BuildTreeForGroup`). -/
def colMaxFreq (words : List Word) : Nat :=
  words.foldl (fun m w => if w.frequency > m then w.frequency else m) 0

/-- `getColumnWords`: the words of each column `0 ≤ i < len(logs[0].Words)`
across the group (ascending column order; the Go map iteration order over
the columns is unspecified, which only permutes `parentCols`/`childCols`,
whose order is irrelevant up to the stable tie-break noted at
`updateChildDirection`). -/
def getColumnWords (logs : List LogMessage) : List (Nat × List Word) :=
  match logs with
  | [] => []
  | l0 :: _ =>
    (List.range l0.words.length).map fun i =>
      (i, logs.filterMap fun log => log.words.get? i)

/-- `BuildTreeForGroup`: classify non-root columns into parent columns
(column-max frequency strictly above the root frequency) and child columns,
build the parent direction and the child-direction tree. -/
def buildTreeForGroup (cfg : Config) (group : LogGroup) : BidirectionalTree :=
  let rootPositions := group.pattern.words.map (·.position)
  let nonRoot := (getColumnWords group.logs).filter
    fun pw => !(rootPositions.contains pw.1)
  let parentCols := (nonRoot.filter fun pw =>
    colMaxFreq pw.2 > group.pattern.frequency).map (·.1)
  let childCols := (nonRoot.filter fun pw =>
    !(colMaxFreq pw.2 > group.pattern.frequency)).map (·.1)
  { rootNodes := group.pattern.words
    parentDirection := updateParentDirection group.logs parentCols
    childDirectionRoot := Node.mk "ROOT" false 0 [] group.logs
      (updateChildDirection cfg parentCols group.logs childCols)
    parentColumns := parentCols
    rootPattern := group.pattern }

/-! ## Template post-processing heuristics (`templates.go`) -/

/-- `'_' '-' '.' ':' '/'`, the special class of `containsMixedPatterns`. -/
def isSpecialCh (c : Char) : Bool :=
  c = '_' || c = '-' || c = '.' || c = ':' || c = '/'

/-- Go `strings.ToUpper` (ASCII; the comparisons are against ASCII protocol
names). -/
def goToUpper (s : String) : String := String.mk (s.toList.map Char.toUpper)

/-- The protocol/format-name allow list of `containsMixedPatterns`. -/
def isProtocolName (word : String) : Bool :=
  let upperWord := goToUpper word
  upperWord = "HTTP" || upperWord = "HTTPS" || upperWord = "SOCKS5" ||
  upperWord = "FTP" || upperWord = "SSH" || upperWord = "TCP" ||
  upperWord = "UDP" || upperWord = "IPV4" || upperWord = "IPV6"

/-- `containsMixedPatterns`: mixed letter/digit/separator content with more
than one digit, excluding short tokens, protocol names, and letter-dominated
tokens with at most one digit. -/
def containsMixedPatterns (word : String) : Bool :=
  if goLen word < 3 then false
  else
    if isProtocolName word then false
    else
      let letterCount := countCh isLetterCh word
      let digitCount := countCh isDigitCh word
      let hasLetters := letterCount > 0
      let hasDigits := digitCount > 0
      let hasSpecial := countCh isSpecialCh word > 0
      if letterCount > digitCount * 2 && digitCount ≤ 1 then false
      else
        let mixedCount := (if hasLetters then 1 else 0) + (if hasDigits then 1 else 0) +
          (if hasSpecial then 1 else 0)
        mixedCount ≥ 2 && hasDigits && digitCount > 1

/-- `shouldBeVariable` (standard post-processing, applied to every template
token regardless of mode). -/
def shouldBeVariable (word : String) : Bool :=
  isNumericVariable word || containsMixedPatterns word

/-- Character type of `hasComplexPattern`: 1 letter, 2 digit, 3 one of
`_-.`, 0 otherwise. -/
def complexCharType (c : Char) : Nat :=
  if isLetterCh c then 1
  else if isDigitCh c then 2
  else if c = '_' || c = '-' || c = '.' then 3
  else 0

/-- `hasComplexPattern`: at least three transitions between character
types. -/
def hasComplexPattern (word : String) : Bool :=
  if goLen word < 4 then false
  else
    let transitions := (word.toList.foldl
      (fun (st : Nat × Nat) c =>
        let currType := complexCharType c
        (if st.2 ≠ 0 && currType ≠ 0 && st.2 ≠ currType then st.1 + 1 else st.1,
         currType))
      (0, 0)).1
    transitions ≥ 3

/-- `looksLikeTimestamp` (configured minimum digits and separators). -/
def looksLikeTimestamp (cfg : Config) (word : String) : Bool :=
  let digitCount := countCh isDigitCh word
  let separatorCount := countCh (fun c => c = ':' || c = '-' || c = '/' || c = '.') word
  digitCount ≥ cfg.timestampMinDigits && separatorCount ≥ cfg.timestampMinSeparators

/-- `looksLikeHash`: length at least 8, hex-character ratio above 0.8
(`5*hex > 4*len`) and length at least 16. -/
def looksLikeHash (word : String) : Bool :=
  if goLen word < 8 then false
  else
    let hexCount := countCh isHexCh word
    5 * hexCount > 4 * goLen word && goLen word ≥ 16

/-- Go `strings.HasSuffix`. -/
def goHasSuffix (s suffix : String) : Bool :=
  suffix.toList.isSuffixOf s.toList

/-- `looksLikeEncoded`: length at least 8 and then either a base64-like
shape (valid-character ratio above 0.95, `20*valid > 19*len`, with an `=`
padding suffix) or, for length at least 16, high character diversity
(unique-rune ratio above 0.6, `5*unique > 3*len`). -/
def looksLikeEncoded (word : String) : Bool :=
  if goLen word < 8 then false
  else
    let validChars := countCh
      (fun c => isLetterCh c || isDigitCh c || c = '+' || c = '/' || c = '=') word
    let isBase64Like := 20 * validChars > 19 * goLen word &&
      (goHasSuffix word "=" || goHasSuffix word "==")
    let uniqueChars := (firstOccs word.toList).length
    let highDiversity := 5 * uniqueChars > 3 * goLen word
    isBase64Like || (goLen word ≥ 16 && highDiversity)

/-- The rune-frequency table of `hasHighEntropy`: the count of each distinct
rune, in first-occurrence order. -/
def runeCounts (word : String) : List Nat :=
  (firstOccs word.toList).map fun c => (word.toList.filter (· = c)).length

/-- Exact embedding of the normalized-Shannon-entropy comparison
`entropy / log2(L) > θ` of `hasHighEntropy`, where `L = len(word)` (bytes),
the frequencies `c` are rune counts, and `R = Σ c` is the rune count of the
word.  Derivation (real arithmetic, `L ≥ 2`, `θ = a/b` with `b > 0`):
`entropy = Σ (c/L) * log2(L/c) = (R/L)·log2 L - (1/L)·Σ c·log2 c`, so
`entropy/log2 L > θ  ⟺  (b·R - a·L)·ln L > b·Σ c·ln c
                    ⟺  L ^ (b·R - a·L) > Π c ^ (c·b)`,
an exact comparison of natural numbers (for `b·R - a·L ≤ 0` the left side
of the middle form is non-positive and the right side non-negative, so the
comparison is false).  For `L ≤ 1` the source divides by `log2(1) = 0`,
producing `NaN > θ = false`. -/
def entropyExceeds (counts : List Nat) (L : Nat) (a : Int) (b : Nat) : Bool :=
  if L ≤ 1 then false
  else
    let R := counts.sum
    let e : Int := (b : Int) * R - a * L
    if e ≤ 0 then false
    else L ^ e.toNat > (counts.map fun c => c ^ (c * b)).prod

/-- `hasHighEntropy` (configured minimum length and threshold). -/
def hasHighEntropy (cfg : Config) (word : String) : Bool :=
  if goLen word < cfg.minEntropyLength then false
  else entropyExceeds (runeCounts word) (goLen word)
    cfg.entropyThresholdNum cfg.entropyThresholdDen

/-- `shouldBeVariableEnhanced` (Drain+ heuristics). -/
def shouldBeVariableEnhanced (cfg : Config) (word : String) : Bool :=
  shouldBeVariable word || hasComplexPattern word || looksLikeTimestamp cfg word ||
  looksLikeHash word || looksLikeEncoded word || hasHighEntropy cfg word

/-- `shouldBeVariableWithConfig`. -/
def shouldBeVariableWithConfig (cfg : Config) (word : String) : Bool :=
  if cfg.useEnhancedPostProcessing then shouldBeVariableEnhanced cfg word
  else shouldBeVariable word

/-! ## Template extraction (`GenerateTemplatesFromTree`) -/

/-- `ParseResult`. -/
structure ParseResult where
  template : String
  count : Nat
  logIDs : List Nat
deriving DecidableEq, Repr

instance : Inhabited LogMessage := ⟨⟨0, "", []⟩⟩

/-- Join tokens with single spaces (`strings.Join(result, " ")`). -/
def joinSpace : List String → String
  | [] => ""
  | t :: rest => rest.foldl (fun acc s => acc ++ " " ++ s) t

/-- The merge step of `buildCompleteTemplate`: copy the base template, then
overwrite with the path template. -/
def mergedTemplate (baseTemplate pathTemplate : List (Nat × String)) :
    List (Nat × String) :=
  pathTemplate.foldl (fun acc kv => assocReplace acc kv.1 kv.2) baseTemplate

/-- The `maxPos` scan of `buildCompleteTemplate`. -/
def templateMaxPos (completeTemplate : List (Nat × String)) : Nat :=
  completeTemplate.foldl (fun m kv => max m kv.1) 0

/-- The token array of `buildCompleteTemplate`: a dense array up to the
maximum position (absent positions become `<*>`), rewriting every non-`<*>`
token that `shouldBeVariableWithConfig` flags — in enhanced and in standard
mode alike. -/
def templateTokens (cfg : Config) (baseTemplate pathTemplate : List (Nat × String)) :
    List String :=
  let completeTemplate := mergedTemplate baseTemplate pathTemplate
  (List.range (templateMaxPos completeTemplate + 1)).map fun i =>
    match assocFind i completeTemplate with
    | some word =>
      if word ≠ "<*>" && shouldBeVariableWithConfig cfg word then "<*>" else word
    | none => "<*>"

/-- `buildCompleteTemplate`: the token array joined by single spaces. -/
def buildCompleteTemplate (cfg : Config) (baseTemplate pathTemplate : List (Nat × String)) :
    String :=
  joinSpace (templateTokens cfg baseTemplate pathTemplate)

mutual

/-- `collectTemplatesFromNode`: walk the child-direction tree maintaining
the per-branch path template (node constants/variables, then the
`parentWords` overrides), emitting one result per leaf with logs. -/
def collectTemplatesFromNode (cfg : Config) (node : Node)
    (baseTemplate pathTemplate : List (Nat × String)) : List ParseResult :=
  match node with
  | Node.mk value isVar pos parentWords logs children =>
    let path1 :=
      if isVar then assocReplace pathTemplate pos "<*>"
      else if value ≠ "" && value ≠ "ROOT" then assocReplace pathTemplate pos value
      else pathTemplate
    let path2 := (List.zip (List.range parentWords.length) parentWords).foldl
      (fun acc pw => if pw.2 ≠ "" then assocReplace acc pw.1 pw.2 else acc) path1
    if children.isEmpty && !logs.isEmpty then
      [⟨buildCompleteTemplate cfg baseTemplate path2, logs.length, logs.map (·.id)⟩]
    else
      collectTemplatesFromChildren cfg children baseTemplate path2

/-- The recursion over the children map (each branch works on its own copy
of the path template). -/
def collectTemplatesFromChildren (cfg : Config) (children : List (String × Node))
    (baseTemplate pathTemplate : List (Nat × String)) : List ParseResult :=
  match children with
  | [] => []
  | (_, child) :: rest =>
    collectTemplatesFromNode cfg child baseTemplate pathTemplate ++
    collectTemplatesFromChildren cfg rest baseTemplate pathTemplate

end

/-- `GenerateTemplatesFromTree` without the per-group quality/reparse branch
(the behaviour when `UseEnhancedPostProcessing` is off or the run is itself
a reparse): base template from parent direction and root, then the tree
walk. -/
def generateTemplatesRaw (cfg : Config) (tree : BidirectionalTree) : List ParseResult :=
  let base0 := tree.parentDirection.foldl
    (fun acc pn => assocReplace acc pn.1
      (if (pn.2).isVariable then "<*>" else (pn.2).value)) []
  let baseTemplate := tree.rootNodes.foldl
    (fun acc w => assocReplace acc w.position w.value) base0
  collectTemplatesFromNode cfg tree.childDirectionRoot baseTemplate []

/-! ## Quality filter and reparse loop -/

/-- `isQualityTemplate`: reject templates whose longest run of `<*>` tokens
exceeds `MaxConsecutiveWildcards` (when positive), whose content-word ratio
is below `MinContentWordsRatio`, or which consist of wildcards only. -/
def isQualityTemplate (cfg : Config) (template : String) : Bool :=
  let tokens := fieldsBy goIsSpace template
  if tokens.isEmpty then false
  else
    let wildcardCount := (tokens.filter (· = "<*>")).length
    let maxConsecutiveWildcards := (tokens.foldl
      (fun (st : Nat × Nat) tok =>
        if tok = "<*>" then (st.1 + 1, max st.2 (st.1 + 1)) else (0, st.2))
      (0, 0)).2
    let contentWords := (tokens.filter (· ≠ "<*>")).length
    if cfg.maxConsecutiveWildcards > 0 &&
        maxConsecutiveWildcards > cfg.maxConsecutiveWildcards then false
    -- `float64(contentWords)/float64(len) < ratio`, exactly:
    -- `contentWords * ratioDen < len * ratioNum`
    else if contentWords * cfg.minContentWordsRatioDen <
        tokens.length * cfg.minContentWordsRatioNum then false
    else if wildcardCount = tokens.length then false
    else true

/-- `filterLowQualityTemplates`: split into (good, bad). -/
def filterLowQualityTemplates (cfg : Config) (results : List ParseResult) :
    List ParseResult × List ParseResult :=
  (results.filter fun r => isQualityTemplate cfg r.template,
   results.filter fun r => !isQualityTemplate cfg r.template)

/-- `extractLogsFromResults`: the logs named by the results' LogIDs, first
occurrence only, looked up by index in `allLogs` (ids out of range are
skipped and not marked seen). -/
def extractLogsFromResults (results : List ParseResult) (allLogs : List LogMessage) :
    List LogMessage :=
  (results.foldl
    (fun (st : List LogMessage × List Nat) r =>
      r.logIDs.foldl
        (fun (st' : List LogMessage × List Nat) logID =>
          if !st'.2.contains logID && logID < allLogs.length then
            (st'.1 ++ [allLogs.getD logID default], st'.2 ++ [logID])
          else st')
        st)
    ([], [])).1

/-- `removeProcessedLogs`: keep `logLines[i]` for every index `i` of
`originalLogs` that is still within `logLines` and whose log's (original)
ID is not among the processed IDs.  Note that the processed IDs delivered
by the reparse levels are batch-relative. -/
def removeProcessedLogs (logLines : List String) (originalLogs : List LogMessage)
    (processedLogIDs : List Nat) : List String :=
  (List.zip (List.range originalLogs.length) originalLogs).filterMap fun il =>
    if il.1 < logLines.length && !processedLogIDs.contains il.2.id then
      logLines.get? il.1
    else none

/-- `aggregateResults`: merge results by template string (summing counts and
concatenating LogID lists), then sort by count descending (`sort.Slice` is
unstable with ties in unspecified order; the embedding sorts stably, which
only affects the output order, never its multiset). -/
def aggregateResults (results : List ParseResult) : List ParseResult :=
  let aggMap := results.foldl
    (fun acc r =>
      match assocFind r.template acc with
      | some prev =>
        assocReplace acc r.template
          ⟨prev.template, prev.count + r.count, prev.logIDs ++ r.logIDs⟩
      | none => acc ++ [(r.template, r)])
    []
  insertionSortBy (fun a b => b.count < a.count) (aggMap.map (·.2))

/-- `Parse` for a configuration whose per-group processing never reparses
(`UseEnhancedPostProcessing` off, or `isReparsing` set): preprocess, group,
build a tree and extract raw templates per group, aggregate.  `lenOrder` is
the iteration order over the length buckets (see `createInitialGroups`). -/
def parseCore (cfg : Config) (lenOrder : List Nat) (logLines : List String) :
    List ParseResult :=
  let processedLogs := preprocessLogs cfg logLines
  let groups := (createInitialGroups cfg lenOrder processedLogs).map (·.2)
  aggregateResults (groups.flatMap fun g =>
    generateTemplatesRaw cfg (buildTreeForGroup cfg g))

/-- `tryReparseWithConfig`: `New(config).Parse(logLines)`.  Every
configuration passed here carries `isReparsing = true`, so the inner parse
never reparses and equals `parseCore`; `New` applied to an
already-defaulted configuration is the identity.  The inner run's length
buckets are iterated in first-occurrence order. -/
def tryReparseWithConfig (config : Config) (logLines : List String) :
    List ParseResult :=
  parseCore config (defaultLenOrder (preprocessLogs config logLines)) logLines

/-- `reparseWithRelaxedSettings`: three progressively relaxed reparse levels
over the logs of the bad results.  Levels 1 and 2 keep only
quality-filtered outputs and drop the lines whose original log ID occurs
among the kept (batch-relative) LogIDs; level 3 keeps all of its outputs
without quality filtering.  If nothing was kept, the original bad results
are returned unchanged. -/
def reparseWithRelaxedSettings (cfg : Config) (badResults : List ParseResult)
    (allLogs : List LogMessage) : List ParseResult :=
  if badResults.isEmpty then []
  else
    let logsToReparse := extractLogsFromResults badResults allLogs
    if logsToReparse.isEmpty then badResults
    else
      let logLines0 := logsToReparse.map (·.content)
      -- Level 1: relaxed enhanced parameters
      let relaxedConfig := { cfg with
        entropyThresholdNum := 95
        entropyThresholdDen := 100
        minEntropyLength := 15
        timestampMinDigits := 10
        isReparsing := true }
      let step1 :=
        let results := tryReparseWithConfig relaxedConfig logLines0
        if !results.isEmpty then
          let goodResults := (filterLowQualityTemplates relaxedConfig results).1
          if !goodResults.isEmpty then
            (goodResults,
             removeProcessedLogs logLines0 logsToReparse (goodResults.flatMap (·.logIDs)))
          else ([], logLines0)
        else ([], logLines0)
      -- Level 2: disable enhanced post-processing
      let step2 :=
        if !step1.2.isEmpty then
          let noEnhancedConfig := { cfg with
            useEnhancedPostProcessing := false
            isReparsing := true }
          let results := tryReparseWithConfig noEnhancedConfig step1.2
          if !results.isEmpty then
            let goodResults := (filterLowQualityTemplates noEnhancedConfig results).1
            if !goodResults.isEmpty then
              (goodResults,
               removeProcessedLogs step1.2 logsToReparse (goodResults.flatMap (·.logIDs)))
            else ([], step1.2)
          else ([], step1.2)
        else ([], step1.2)
      -- Level 3: original Brain behaviour, results accepted without filtering
      let step3 :=
        if !step2.2.isEmpty then
          let originalConfig := { cfg with
            useEnhancedPostProcessing := false
            useStatisticalThreshold := false
            isReparsing := true }
          tryReparseWithConfig originalConfig step2.2
        else []
      let allGoodResults := step1.1 ++ step2.1 ++ step3
      if !allGoodResults.isEmpty then allGoodResults else badResults

/-- `GenerateTemplatesFromTree`: raw extraction, and — in enhanced,
non-reparse runs — quality filtering with the reparse fallback for the bad
part. -/
def generateTemplatesFromTree (cfg : Config) (tree : BidirectionalTree)
    (allLogs : List LogMessage) : List ParseResult :=
  let results := generateTemplatesRaw cfg tree
  if cfg.useEnhancedPostProcessing && !cfg.isReparsing then
    let (goodResults, badResults) := filterLowQualityTemplates cfg results
    if !badResults.isEmpty then
      goodResults ++ reparseWithRelaxedSettings cfg badResults allLogs
    else goodResults
  else results

/-- `Parse`: the full pipeline.  `lenOrder` is the (randomised in Go)
iteration order over the length buckets of `CreateInitialGroups`; all other
unspecified iteration orders are embedded in first-insertion order and only
affect the order of the returned list, not its multiset (the concrete
inputs below stay under `ParallelProcessingThreshold`, so Go takes the
sequential path embedded here). -/
def Parse (cfg : Config) (lenOrder : List Nat) (logLines : List String) :
    List ParseResult :=
  let processedLogs := preprocessLogs cfg logLines
  let groups := (createInitialGroups cfg lenOrder processedLogs).map (·.2)
  aggregateResults (groups.flatMap fun g =>
    generateTemplatesFromTree cfg (buildTreeForGroup cfg g) processedLogs)

/-- `Parse` with the canonical (first-occurrence) length-bucket order. -/
def ParseD (cfg : Config) (logLines : List String) : List ParseResult :=
  Parse cfg (defaultLenOrder (preprocessLogs cfg logLines)) logLines

/-! ## Concrete configurations

The configurations exercised by the claims, written as `New` leaves them
(defaults filled).  None of them enables `UseDynamicThreshold`, so the
opaque float fields `dynLnRaw`/`statRaw` are never consulted and are set to
the constant 0. -/

/-- The configuration `New(Config{})` produces: default delimiters
`[\s,:=]`, default thresholds, default common variables, everything else
off. -/
def defaultConfig : Config where
  isDelimiter := fun c => re2Space c || c = ',' || c = ':' || c = '='
  commonVariables := getDefaultCommonVariables
  childBranchThreshold := 3
  weightNum := 0
  weightDen := 1
  useDynamicThreshold := false
  dynLnRaw := fun _ => 0
  statRaw := fun _ => 0
  useEnhancedPostProcessing := false
  useStatisticalThreshold := false
  parallelProcessingThreshold := 1000
  entropyThresholdNum := 85
  entropyThresholdDen := 100
  minEntropyLength := 10
  maxConsecutiveWildcards := 5
  minContentWordsRatioNum := 25
  minContentWordsRatioDen := 100
  timestampMinDigits := 8
  timestampMinSeparators := 2
  isReparsing := false

/-- Default configuration with `UseEnhancedPostProcessing` on. -/
def enhancedConfig : Config :=
  { defaultConfig with useEnhancedPostProcessing := true }

/-- The configuration of claim C4's scenario: delimiters `\s+`,
`ChildBranchThreshold` 2, dynamic threshold off, defaults elsewhere. -/
def scenarioConfig : Config :=
  { defaultConfig with isDelimiter := re2Space, childBranchThreshold := 2 }

/-- A configuration with the dynamic threshold enabled (statistical variant
off) and `DynamicThresholdFactor = 2.0`.  Its `dynLnRaw` field stands for
`int(math.Log(float64(u)) * 2.0)`; the claims below consult it only at
`u = 1`, where `math.Log(1) = 0` exactly (also in IEEE float64), so the
field is the constant 0 function. -/
def dynamicLogConfig : Config :=
  { defaultConfig with useDynamicThreshold := true, dynLnRaw := fun _ => 0 }

/-- The reparse loop as the amended claim C8 states it, in explicit stages:
levels 1 and 2 quality-filter their outputs, keep only the good ones and
drop a line when its original log's ID occurs among the kept outputs'
batch-relative LogIDs; a level runs only while lines remain; level 3 keeps
every output without quality filtering; if no level kept anything, the
original bad results are returned unchanged. -/
def reparseStaged (cfg : Config) (badResults : List ParseResult)
    (allLogs : List LogMessage) : List ParseResult :=
  if badResults.isEmpty then []
  else
    let logsToReparse := extractLogsFromResults badResults allLogs
    if logsToReparse.isEmpty then badResults
    else
      let lines0 := logsToReparse.map (·.content)
      let level1Config := { cfg with
        entropyThresholdNum := 95
        entropyThresholdDen := 100
        minEntropyLength := 15
        timestampMinDigits := 10
        isReparsing := true }
      let kept1 := (filterLowQualityTemplates level1Config
        (tryReparseWithConfig level1Config lines0)).1
      let lines1 :=
        if kept1.isEmpty then lines0
        else removeProcessedLogs lines0 logsToReparse (kept1.flatMap (·.logIDs))
      let level2Config := { cfg with
        useEnhancedPostProcessing := false
        isReparsing := true }
      let kept2 :=
        if lines1.isEmpty then []
        else (filterLowQualityTemplates level2Config
          (tryReparseWithConfig level2Config lines1)).1
      let lines2 :=
        if kept2.isEmpty then lines1
        else removeProcessedLogs lines1 logsToReparse (kept2.flatMap (·.logIDs))
      let level3Config := { cfg with
        useEnhancedPostProcessing := false
        useStatisticalThreshold := false
        isReparsing := true }
      let kept3 :=
        if lines2.isEmpty then []
        else tryReparseWithConfig level3Config lines2
      let kept := kept1 ++ kept2 ++ kept3
      if kept.isEmpty then badResults else kept

/-! ## Supporting lemmas -/

theorem length_insertSorted {α : Type} (le : α → α → Bool) (x : α) (l : List α) :
    (insertionSortBy.insertSorted le x l).length = l.length + 1 := by
  induction l with
  | nil => rfl
  | cons y ys ih =>
    simp only [insertionSortBy.insertSorted]
    split <;> simp [ih]

theorem length_insertionSortBy {α : Type} (le : α → α → Bool) (l : List α) :
    (insertionSortBy le l).length = l.length := by
  induction l with
  | nil => rfl
  | cons x xs ih =>
    simp only [insertionSortBy]
    rw [length_insertSorted, ih, List.length_cons]

theorem mem_firstOccs {α : Type} [DecidableEq α] (a : α) (l : List α) :
    a ∈ firstOccs l ↔ a ∈ l := by
  induction l with
  | nil => simp [firstOccs]
  | cons x rest ih =>
    simp only [firstOccs, List.mem_cons]
    constructor
    · rintro (rfl | h)
      · exact Or.inl rfl
      · exact Or.inr (ih.mp (List.mem_of_mem_filter h))
    · rintro (rfl | h)
      · exact Or.inl rfl
      · by_cases hax : a = x
        · exact Or.inl hax
        · exact Or.inr (List.mem_filter.mpr ⟨ih.mpr h, by simp [hax]⟩)

theorem nodup_firstOccs {α : Type} [DecidableEq α] (l : List α) :
    (firstOccs l).Nodup := by
  induction l with
  | nil => simp [firstOccs]
  | cons x rest ih =>
    simp only [firstOccs]
    refine List.Nodup.cons ?_ (ih.filter _)
    intro hx
    have := List.of_mem_filter hx
    simp at this

/-! ### Association-list partition lemmas (for claim C5) -/

theorem assocFind_eq_none_iff {κ α : Type} [DecidableEq κ] (k : κ) (l : List (κ × α)) :
    assocFind k l = none ↔ k ∉ l.map (·.1) := by
  induction l with
  | nil => simp [assocFind]
  | cons kv rest ih =>
    by_cases h : k = kv.1
    · simp [assocFind, h]
    · simp [assocFind, h, ih]

theorem assocFind_isSome_iff {κ α : Type} [DecidableEq κ] (k : κ) (l : List (κ × α)) :
    (assocFind k l).isSome = true ↔ k ∈ l.map (·.1) := by
  induction l with
  | nil => simp [assocFind]
  | cons kv rest ih =>
    by_cases h : k = kv.1
    · simp [assocFind, h]
    · simp [assocFind, h, ih]

theorem assocFind_assocAppend {κ α : Type} [DecidableEq κ]
    (acc : List (κ × List α)) (k k' : κ) (x : α) :
    assocFind k' (assocAppend acc k x) =
      if k' = k then some (((assocFind k acc).getD []) ++ [x])
      else assocFind k' acc := by
  induction acc with
  | nil =>
    by_cases h : k' = k <;> simp [assocAppend, assocFind, h]
  | cons kv rest ih =>
    obtain ⟨k1, v1⟩ := kv
    simp only [assocAppend]
    by_cases hk : k = k1
    · subst hk
      simp only [if_pos rfl]
      by_cases h' : k' = k
      · subst h'
        simp [assocFind]
      · simp [assocFind, h']
    · simp only [if_neg hk]
      by_cases h' : k' = k1
      · subst h'
        have hne : ¬ k' = k := fun he => hk he.symm
        simp [assocFind, hne]
      · simp [assocFind, h', ih, hk]

theorem assocFind_partition_fold {κ α : Type} [DecidableEq κ]
    (pairs : List (κ × α)) (acc : List (κ × List α)) (k : κ) :
    assocFind k (pairs.foldl (fun a p => assocAppend a p.1 p.2) acc) =
      if (assocFind k acc).isSome ∨ k ∈ pairs.map (·.1) then
        some (((assocFind k acc).getD []) ++
          ((pairs.filter fun p => p.1 = k).map (·.2)))
      else none := by
  induction pairs generalizing acc with
  | nil =>
    cases hf : assocFind k acc with
    | none => simp [hf]
    | some v => simp [hf]
  | cons p rest ih =>
    obtain ⟨pk, pv⟩ := p
    simp only [List.foldl_cons, ih (assocAppend acc pk pv)]
    by_cases hkp : k = pk
    · subst hkp
      simp [assocFind_assocAppend, List.filter_cons]
    · have hpk : ¬ pk = k := fun h => hkp h.symm
      rw [assocFind_assocAppend, if_neg hkp]
      by_cases hc : (assocFind k acc).isSome = true ∨ k ∈ List.map (fun x => x.1) rest
      · have hc2 : (assocFind k acc).isSome = true ∨
            k ∈ List.map (fun x => x.1) ((pk, pv) :: rest) := by
          rcases hc with h | h
          · exact Or.inl h
          · exact Or.inr (by simp only [List.map_cons, List.mem_cons]; exact Or.inr h)
        rw [if_pos hc, if_pos hc2]
        simp [List.filter_cons, hpk]
      · have hc2 : ¬ ((assocFind k acc).isSome = true ∨
            k ∈ List.map (fun x => x.1) ((pk, pv) :: rest)) := by
          intro h
          rcases h with h | h
          · exact hc (Or.inl h)
          · simp only [List.map_cons, List.mem_cons] at h
            rcases h with h2 | h2
            · exact hkp h2
            · exact hc (Or.inr h2)
        rw [if_neg hc, if_neg hc2]

theorem assocAppend_map_fst {κ α : Type} [DecidableEq κ]
    (acc : List (κ × List α)) (k : κ) (x : α) :
    (assocAppend acc k x).map (·.1) =
      if k ∈ acc.map (·.1) then acc.map (·.1) else acc.map (·.1) ++ [k] := by
  induction acc with
  | nil => simp [assocAppend]
  | cons kv rest ih =>
    obtain ⟨k1, v1⟩ := kv
    simp only [assocAppend]
    by_cases hk : k = k1
    · subst hk
      simp
    · have h1 : ¬ k1 = k := fun h => hk h.symm
      simp only [if_neg hk, List.map_cons, ih, List.mem_cons]
      by_cases hmem : k ∈ rest.map (·.1) <;> simp [hmem, hk, h1]

theorem partition_fold_keys_nodup {κ α : Type} [DecidableEq κ]
    (pairs : List (κ × α)) (acc : List (κ × List α))
    (h : (acc.map (·.1)).Nodup) :
    ((pairs.foldl (fun a p => assocAppend a p.1 p.2) acc).map (·.1)).Nodup := by
  induction pairs generalizing acc with
  | nil => exact h
  | cons p rest ih =>
    simp only [List.foldl_cons]
    refine ih _ ?_
    rw [assocAppend_map_fst]
    by_cases hmem : p.1 ∈ acc.map (·.1)
    · rw [if_pos hmem]; exact h
    · rw [if_neg hmem]
      refine List.Nodup.append h (List.nodup_singleton _) ?_
      intro a ha hb
      rw [List.mem_singleton] at hb
      exact hmem (hb ▸ ha)

theorem partition_fold_keys_mem {κ α : Type} [DecidableEq κ]
    (pairs : List (κ × α)) (acc : List (κ × List α)) (k : κ) :
    k ∈ (pairs.foldl (fun a p => assocAppend a p.1 p.2) acc).map (·.1) ↔
      k ∈ acc.map (·.1) ∨ k ∈ pairs.map (·.1) := by
  rw [← assocFind_isSome_iff, ← assocFind_isSome_iff]
  rw [assocFind_partition_fold]
  by_cases h : (assocFind k acc).isSome = true ∨ k ∈ pairs.map (·.1) <;> simp [h]

theorem assocFind_of_mem_nodup {κ α : Type} [DecidableEq κ]
    {l : List (κ × α)} {kv : κ × α}
    (h : (l.map (·.1)).Nodup) (hm : kv ∈ l) : assocFind kv.1 l = some kv.2 := by
  induction l with
  | nil => cases hm
  | cons a rest ih =>
    rcases List.mem_cons.mp hm with hm | hm
    · subst hm
      simp [assocFind]
    · have hne : kv.1 ≠ a.1 := by
        intro he
        have : a.1 ∈ rest.map (·.1) :=
          he ▸ List.mem_map.mpr ⟨kv, hm, rfl⟩
        simp only [List.map_cons, List.nodup_cons] at h
        exact h.1 this
      simp only [assocFind, hne, if_false]
      exact ih (by simp only [List.map_cons, List.nodup_cons] at h; exact h.2) hm

/-- A string has at least as many UTF-8 bytes as runes. -/
theorem length_le_goLen (s : String) : s.toList.length ≤ goLen s := by
  unfold goLen
  suffices h : ∀ (l : List Char) (a : Nat),
      a + l.length ≤ l.foldl (fun n c => n + c.utf8Size) a by
    simpa using h s.toList 0
  intro l
  induction l with
  | nil => simp
  | cons c rest ih =>
    intro a
    simp only [List.foldl_cons, List.length_cons]
    have h1 := ih (a + c.utf8Size)
    have h2 : 0 < c.utf8Size := Char.utf8Size_pos c
    omega

/-- An ASCII digit is neither a letter nor one of the separator
characters. -/
theorem digit_excl (c : Char) (h : isDigitCh c = true) :
    (isLetterCh c || isSpecialCh c) = false := by
  simp only [isDigitCh, Bool.and_eq_true, decide_eq_true_eq] at h
  obtain ⟨h0, h9⟩ := h
  have hlt : c < 'a' := lt_of_le_of_lt h9 (by decide)
  have hltA : c < 'A' := lt_of_le_of_lt h9 (by decide)
  have hL : isLetterCh c = false := by
    simp only [isLetterCh, Bool.or_eq_false_iff, Bool.and_eq_false_iff,
      decide_eq_false_iff_not]
    exact ⟨Or.inl (not_le.mpr hlt), Or.inl (not_le.mpr hltA)⟩
  have hS : isSpecialCh c = false := by
    simp only [isSpecialCh, Bool.or_eq_false_iff, decide_eq_false_iff_not]
    refine ⟨⟨⟨⟨?_, ?_⟩, ?_⟩, ?_⟩, ?_⟩ <;> (intro he; subst he; revert h0 h9; decide)
  simp [hL, hS]

/-- Filters by disjoint predicates jointly never exceed the list length. -/
theorem filter_disjoint_length (p q : Char → Bool)
    (h : ∀ c, p c = true → q c = false) (l : List Char) :
    (l.filter p).length + (l.filter q).length ≤ l.length := by
  induction l with
  | nil => simp
  | cons c rest ih =>
    by_cases hp : p c = true
    · have hq := h c hp
      simp only [List.filter_cons, hp, hq, if_true, Bool.false_eq_true, if_false,
        List.length_cons]
      omega
    · simp only [List.filter_cons, hp, Bool.false_eq_true, if_false, List.length_cons]
      by_cases hq : q c = true
      · simp only [hq, if_true, List.length_cons]
        omega
      · simp only [hq, Bool.false_eq_true, if_false]
        omega

/-- Rune counting is monotone into a disjunction (left disjunct). -/
theorem countCh_or_ge_left (p q : Char → Bool) (s : String) :
    countCh p s ≤ countCh (fun c => p c || q c) s := by
  unfold countCh
  induction s.toList with
  | nil => simp
  | cons c rest ih =>
    simp only [List.filter_cons]
    by_cases hp : p c = true
    · simp only [hp, Bool.true_or, if_true, List.length_cons]
      omega
    · simp only [hp, Bool.false_eq_true, if_false]
      by_cases hq : q c = true
      · simp only [hp, hq, Bool.or_true, if_true, List.length_cons]
        omega
      · simp only [hp, hq, Bool.or_false, Bool.false_eq_true, if_false]
        exact ih

/-- Rune counting is monotone into a disjunction (right disjunct). -/
theorem countCh_or_ge_right (p q : Char → Bool) (s : String) :
    countCh q s ≤ countCh (fun c => p c || q c) s := by
  unfold countCh
  induction s.toList with
  | nil => simp
  | cons c rest ih =>
    simp only [List.filter_cons]
    by_cases hq : q c = true
    · simp only [hq, Bool.or_true, if_true, List.length_cons]
      omega
    · simp only [hq, Bool.false_eq_true, if_false]
      by_cases hp : p c = true
      · simp only [hp, Bool.true_or, if_true, List.length_cons]
        omega
      · simp only [hp, hq, Bool.or_false, Bool.false_eq_true, if_false]
        exact ih

/-- A token with more than one digit, at least one letter or separator, and
no protocol-name exemption satisfies `containsMixedPatterns` — every such
token is at least 3 bytes long, so the length gate never blocks it. -/
theorem mixed_of_counts (word : String)
    (hd2 : 1 < countCh isDigitCh word)
    (hls : 0 < countCh isLetterCh word ∨ 0 < countCh isSpecialCh word)
    (hproto : isProtocolName word = false) :
    containsMixedPatterns word = true := by
  have hdisj : countCh isDigitCh word +
      countCh (fun c => isLetterCh c || isSpecialCh c) word ≤ word.toList.length :=
    filter_disjoint_length isDigitCh (fun c => isLetterCh c || isSpecialCh c)
      digit_excl word.toList
  have hor : 0 < countCh (fun c => isLetterCh c || isSpecialCh c) word := by
    rcases hls with h | h
    · exact lt_of_lt_of_le h (countCh_or_ge_left _ _ _)
    · exact lt_of_lt_of_le h (countCh_or_ge_right _ _ _)
  have hglen : ¬ goLen word < 3 := by
    have := length_le_goLen word
    omega
  unfold containsMixedPatterns
  rw [if_neg hglen, if_neg (by simp [hproto])]
  dsimp only
  rw [if_neg ?hguard]
  case hguard =>
    simp only [Bool.and_eq_true, decide_eq_true_eq, not_and]
    intro _
    omega
  simp only [Bool.and_eq_true, decide_eq_true_eq]
  refine ⟨⟨?_, by omega⟩, by omega⟩
  rcases hls with h | h <;> split_ifs <;> omega

/-- The quality filter keeps nothing of an empty result list. -/
theorem filter_good_of_empty (c : Config) (res : List ParseResult)
    (h : res.isEmpty = true) : (filterLowQualityTemplates c res).1 = [] := by
  rw [List.isEmpty_iff.mp h]
  rfl

/-- One reparse level, rearranged: the nested guards of a level (results
nonempty, kept results nonempty) collapse to returning the kept results
together with the lines remaining after removing their logs. -/
theorem reparse_step_eq {α β : Type} (res good : List α) (lines rm : List β)
    (h : res.isEmpty = true → good = []) :
    (if !res.isEmpty then
        (if !good.isEmpty then (good, rm) else (([] : List α), lines))
      else (([] : List α), lines)) =
      (good, if good.isEmpty then lines else rm) := by
  by_cases h1 : res.isEmpty = true
  · simp [h1, h h1]
  · by_cases h2 : good.isEmpty = true
    · simp [h1, h2, List.isEmpty_iff.mp h2]
    · simp [h1, h2]

/-- `isEmpty` distributes over append. -/
theorem isEmpty_append {α : Type} (a b : List α) :
    (a ++ b).isEmpty = (a.isEmpty && b.isEmpty) := by
  cases a <;> simp [List.isEmpty]

/-- The three-level reparse chain, generically: the nested per-level guards
of the source equal the staged form (per-level kept results, then the
remaining lines), for arbitrary per-level parsers, filters and removers. -/
theorem reparse_chain {α γ : Type}
    (p1 p2 p3 : List γ → List α)
    (f1 f2 : List α → List α)
    (rem : List γ → List α → List γ)
    (L0 : List γ) (bad : List α)
    (h1 : ∀ r, r.isEmpty = true → f1 r = [])
    (h2 : ∀ r, r.isEmpty = true → f2 r = []) :
    (let step1 :=
        if !(p1 L0).isEmpty then
          if !(f1 (p1 L0)).isEmpty then
            (f1 (p1 L0), rem L0 (f1 (p1 L0)))
          else (([] : List α), L0)
        else (([] : List α), L0)
      let step2 :=
        if !step1.2.isEmpty then
          if !(p2 step1.2).isEmpty then
            if !(f2 (p2 step1.2)).isEmpty then
              (f2 (p2 step1.2), rem step1.2 (f2 (p2 step1.2)))
            else (([] : List α), step1.2)
          else (([] : List α), step1.2)
        else (([] : List α), step1.2)
      let step3 := if !step2.2.isEmpty then p3 step2.2 else []
      let allGood := step1.1 ++ step2.1 ++ step3
      if !allGood.isEmpty then allGood else bad) =
    (let kept1 := f1 (p1 L0)
     let lines1 := if kept1.isEmpty then L0 else rem L0 kept1
     let kept2 := if lines1.isEmpty then [] else f2 (p2 lines1)
     let lines2 := if kept2.isEmpty then lines1 else rem lines1 kept2
     let kept3 := if lines2.isEmpty then [] else p3 lines2
     let kept := kept1 ++ kept2 ++ kept3
     if kept.isEmpty then bad else kept) := by
  dsimp only
  rw [reparse_step_eq _ _ _ _ (h1 (p1 L0)), reparse_step_eq _ _ _ _ (h2 _)]
  dsimp only
  set G1 := f1 (p1 L0) with hG1
  set L1 := if G1.isEmpty = true then L0 else rem L0 G1 with hL1
  set G2 := f2 (p2 L1) with hG2
  set L2 := if G2.isEmpty = true then L1 else rem L1 G2 with hL2
  clear_value G1 L1 G2 L2
  cases eL1 : L1.isEmpty with
  | true =>
    cases eG1 : G1.isEmpty <;> simp_all [isEmpty_append]
  | false =>
    cases eG2 : G2.isEmpty <;> cases eG1 : G1.isEmpty <;> cases eL2 : L2.isEmpty <;>
      cases eP3 : (p3 L2).isEmpty <;> simp_all [isEmpty_append]

/-- The keys of the column pair list are exactly the column values. -/
theorem pairs_map_fst (logs : List LogMessage) (p : Nat) :
    (logs.filterMap fun log => (log.words.get? p).map fun w => (w.value, log)).map (·.1)
      = columnValues logs p := by
  induction logs with
  | nil => rfl
  | cons l rest ih =>
    simp only [columnValues, List.filterMap_cons] at ih ⊢
    cases hw : l.words.get? p with
    | none => simpa [hw] using ih
    | some w => simpa [hw] using ih

/-- Partition keys are exactly the values occurring at the column. -/
theorem partition_keys_mem_columnValues (logs : List LogMessage) (p : Nat) (v : String) :
    v ∈ (partitionByColumn logs p).map (·.1) ↔ v ∈ columnValues logs p := by
  unfold partitionByColumn
  rw [partition_fold_keys_mem, pairs_map_fst]
  simp

/-- The size of the partition map is the number of distinct column values. -/
theorem partition_length_eq (logs : List LogMessage) (p : Nat) :
    (partitionByColumn logs p).length = countUniqueWordsInColumn logs p := by
  have hnd : ((partitionByColumn logs p).map (·.1)).Nodup :=
    partition_fold_keys_nodup _ [] (by simp)
  have hnd2 := nodup_firstOccs (columnValues logs p)
  have hmem : ∀ v, v ∈ (partitionByColumn logs p).map (·.1) ↔
      v ∈ firstOccs (columnValues logs p) := by
    intro v
    rw [mem_firstOccs, partition_keys_mem_columnValues]
  have hfin : ((partitionByColumn logs p).map (·.1)).toFinset =
      (firstOccs (columnValues logs p)).toFinset := by
    ext v
    simp only [List.mem_toFinset]
    exact hmem v
  have hcard := congrArg Finset.card hfin
  rw [List.toFinset_card_of_nodup hnd, List.toFinset_card_of_nodup hnd2] at hcard
  simpa [countUniqueWordsInColumn] using hcard

/-- Filtering the column pair list by a key and projecting the logs equals
filtering the logs by that column value. -/
theorem pairs_filter_group (logs : List LogMessage) (p : Nat) (v : String) :
    (((logs.filterMap fun log => (log.words.get? p).map fun w => (w.value, log)).filter
        fun pr => pr.1 = v).map (·.2)) =
      logs.filter fun log => (log.words.get? p).map (·.value) = some v := by
  induction logs with
  | nil => rfl
  | cons l rest ih =>
    simp only [List.filterMap_cons]
    cases hw : l.words.get? p with
    | none =>
      simp only [List.get?_eq_getElem?] at hw
      simpa [hw, List.filter_cons, -Option.map_eq_some'] using ih
    | some w =>
      simp only [List.get?_eq_getElem?] at hw
      by_cases hv : w.value = v
      · simpa [hw, hv, List.filter_cons, -Option.map_eq_some'] using
          congrArg (l :: ·) ih
      · simpa [hw, hv, List.filter_cons, -Option.map_eq_some'] using ih

/-- Every entry of the partition owns exactly the logs carrying its value at
the column. -/
theorem partition_group_eq (logs : List LogMessage) (p : Nat) :
    ∀ vl ∈ partitionByColumn logs p,
      vl.2 = logs.filter fun log => (log.words.get? p).map (·.value) = some vl.1 := by
  intro vl hm
  have hnd : ((partitionByColumn logs p).map (·.1)).Nodup :=
    partition_fold_keys_nodup _ [] (by simp)
  have hfind := assocFind_of_mem_nodup hnd hm
  have hkey : vl.1 ∈ (partitionByColumn logs p).map (·.1) :=
    List.mem_map.mpr ⟨vl, hm, rfl⟩
  rw [partition_keys_mem_columnValues, ← pairs_map_fst] at hkey
  unfold partitionByColumn at hfind
  rw [assocFind_partition_fold, if_pos (Or.inr hkey)] at hfind
  simp only [assocFind, Option.getD_none, List.nil_append] at hfind
  have hg := pairs_filter_group logs p vl.1
  rw [hg] at hfind
  exact (Option.some.injEq _ _ ▸ hfind :
    (logs.filter fun log => (log.words.get? p).map (·.value) = some vl.1) = vl.2).symm

/-! ## Claims -/

/-- **C1** (code bug).  The claim states that the LogID lists of `Parse(L)`
partition the input indices — in particular that the counts sum to `|L|`.
The code violates this: on `L = ["x y", "x y z"]` (default configuration)
both logs select the LCP `{x@0, y@1}` with frequency 2, so the two length
buckets produce the *same* group key, and the `finalGroups[key] = ...`
assignment of `CreateInitialGroups` lets the later bucket overwrite — and
silently drop — the earlier one.  With bucket order `[2, 3]` the parse
returns a single result `("x y z", 1, [1])`: the counts sum to 1 ≠ 2 and
input index 0 appears in no LogID list. -/
theorem claim_C1_partition_failure :
    (ParseD defaultConfig ["x y", "x y z"]).map
      (fun r => (r.template, r.count, r.logIDs)) = [("x y z", 1, [1])] ∧
    ((ParseD defaultConfig ["x y", "x y z"]).map (fun r => r.count)).sum = 1 ∧
    (["x y", "x y z"] : List String).length = 2 := by
  refine ⟨by rfl, by rfl, by rfl⟩

/-- **C2** (code bug).  The claim states that two executions of `Parse(L)`
with the same configuration produce the same set of `(template, count)`
pairs.  The iteration order over the `logsByLength` map in
`CreateInitialGroups` is randomised between runs, and on
`L = ["x y", "x y z"]` (default configuration) the two length buckets
collide on one group key (see `claim_C1_partition_failure`), so the bucket
visited later wins: order `[2, 3]` yields `{("x y z", 1)}` while order
`[3, 2]` yields `{("x y", 1)}` — different sets across two runs. -/
theorem claim_C2_two_run_nondeterminism :
    (Parse defaultConfig [2, 3] ["x y", "x y z"]).map
      (fun r => (r.template, r.count)) = [("x y z", 1)] ∧
    (Parse defaultConfig [3, 2] ["x y", "x y z"]).map
      (fun r => (r.template, r.count)) = [("x y", 1)] ∧
    ((Parse defaultConfig [2, 3] ["x y", "x y z"]).map
        (fun r => (r.template, r.count)) : Multiset (String × Nat)) ≠
      ((Parse defaultConfig [3, 2] ["x y", "x y z"]).map
        (fun r => (r.template, r.count)) : Multiset (String × Nat)) := by
  refine ⟨by rfl, by rfl, by decide⟩

/-- **C3** (code bug).  The claim states that duplicating the input exactly
doubles every template's count.  With enhanced post-processing on and
`L = ["hello world", "abcdefghij"]`, the lone token `abcdefghij` is
entropy-masked to `<*>`, the resulting all-wildcard template is low
quality, and the reparse loop re-parses its log: level 1 keeps the good
template but `removeProcessedLogs` compares the *original* log IDs against
the *batch-relative* kept LogIDs, so the line is not removed and levels 2
and 3 parse it again, yielding count 3 for `"abcdefghij"`.  On `L ++ L` the
same confusion yields count 4 — not the doubled 6. -/
theorem claim_C3_duplication_failure :
    ((ParseD enhancedConfig ["hello world", "abcdefghij"]).map
        (fun r => (r.template, r.count)) : Multiset (String × Nat)) =
      {("hello world", 1), ("abcdefghij", 3)} ∧
    ((ParseD enhancedConfig
        (["hello world", "abcdefghij"] ++ ["hello world", "abcdefghij"])).map
        (fun r => (r.template, r.count)) : Multiset (String × Nat)) =
      {("hello world", 2), ("abcdefghij", 4)} := by
  refine ⟨by decide, by decide⟩

/-- **C4** (confirmed).  The end-to-end scenario: five lines, delimiters
`\s+`, `ChildBranchThreshold = 2`, dynamic threshold off, defaults
elsewhere.  The "event" group has three middle values (3 > 2, collapse to
`<*>`), the "task" group has two (2 ≤ 2, keep constants). -/
theorem claim_C4_scenario :
    ((ParseD scenarioConfig
        ["event A happened", "event B happened", "event C happened",
         "task X finished", "task Y finished"]).map
        (fun r => (r.template, r.count)) : Multiset (String × Nat)) =
      {("event <*> happened", 3), ("task X finished", 1), ("task Y finished", 1)} := by
  decide

/-- **C6** (corrected), counterexample.  The claim states that with the
dynamic threshold on and the statistical variant off the threshold is
`floor(ln(u) × factor)` with no clamping.  With factor 2.0 and `u = 1` the
claimed value is `int(ln 1 × 2.0) = 0`, but `calculateDynamicThreshold`
clamps every dynamic value to a minimum of 2 (and a maximum of 10): the
code returns 2. -/
theorem claim_C6_counterexample :
    dynamicLogConfig.useDynamicThreshold = true ∧
    dynamicLogConfig.useStatisticalThreshold = false ∧
    dynamicLogConfig.dynLnRaw 1 = 0 ∧
    calculateDynamicThreshold dynamicLogConfig 1 = 2 :=
  ⟨rfl, rfl, rfl, by rfl⟩

/-- **C6** (corrected), amended claim.  For every positive distinct-value
count `u`: with `useDynamicThreshold` off the threshold is the raw
`childBranchThreshold` (no minimum applied); with it on and
`useStatisticalThreshold` off the threshold is `int(ln(u) × factor)`
(`cfg.dynLnRaw u`) clamped into `[2, 10]` — the clamp applies to the
non-statistical case as well, and only the dynamic path is clamped. -/
theorem claim_C6_amended (cfg : Config) (u : Nat) (hu : 0 < u) :
    (cfg.useDynamicThreshold = false →
      calculateDynamicThreshold cfg u = cfg.childBranchThreshold) ∧
    (cfg.useDynamicThreshold = true → cfg.useStatisticalThreshold = false →
      calculateDynamicThreshold cfg u = min 10 (max 2 (cfg.dynLnRaw u))) := by
  constructor
  · intro h
    simp [calculateDynamicThreshold, h]
  · intro h hs
    have hne : ¬ u = 0 := Nat.pos_iff_ne_zero.mp hu
    unfold calculateDynamicThreshold
    split_ifs with h1 h2
    · exact absurd h1 (by simp [h, hne])
    · rw [hs] at h2
      exact absurd h2 (by simp)
    · dsimp only
      split_ifs <;> omega

/-- Witness for `claim_C6_amended` at `cfg = dynamicLogConfig`, `u = 5`. -/
theorem claim_C6_amended_witness :
    0 < 5 ∧
    ((dynamicLogConfig.useDynamicThreshold = false →
        calculateDynamicThreshold dynamicLogConfig 5 =
          dynamicLogConfig.childBranchThreshold) ∧
     (dynamicLogConfig.useDynamicThreshold = true →
        dynamicLogConfig.useStatisticalThreshold = false →
        calculateDynamicThreshold dynamicLogConfig 5 =
          min 10 (max 2 (dynamicLogConfig.dynLnRaw 5)))) :=
  ⟨by decide, claim_C6_amended dynamicLogConfig 5 (by decide)⟩

/-- The `bestMatch` fold finds a match exactly when some pattern matches,
for every accumulator and every tie-break relation. -/
theorem bestMatchFold_isSome_aux (better : Pattern → Pattern → String → Bool)
    (word : String) (patterns : List Pattern) (acc : Option Pattern) :
    (patterns.foldl
      (fun best p =>
        if p.matchString word then
          match best with
          | none => some p
          | some b => if better p b word then some p else some b
        else best)
      acc).isSome = (acc.isSome || patterns.any fun p => p.matchString word) := by
  induction patterns generalizing acc with
  | nil => simp
  | cons p rest ih =>
    simp only [List.foldl_cons, List.any_cons]
    by_cases hm : p.matchString word
    · cases acc with
      | none => simp [hm, ih]
      | some b =>
        by_cases hb : better p b word <;> simp [hm, hb, ih]
    · cases acc with
      | none => simp [hm, ih]
      | some b => simp [hm, ih]

/-- **C7** (corrected), counterexample.  The claim masks a token when at
least 30% of its *characters* are ASCII digits.  `isNumericVariable`
divides the digit count by `len(word)`, the UTF-8 *byte* length.  The token
`"1éé"` has 3 characters, 1 of them a digit (33% ≥ 30%), and matches no
default pattern, so the claim says it is masked — but its byte length is 5
(1/5 = 20% < 30%) and the code keeps it unchanged. -/
theorem claim_C7_counterexample :
    filterCommonVariables getDefaultCommonVariables "1éé" = "1éé" ∧
    (getDefaultCommonVariables.all fun p => !(p.matchString "1éé")) = true ∧
    10 * (("1éé").toList.filter isDigitCh).length ≥ 3 * ("1éé").toList.length :=
  ⟨by rfl, by rfl, by decide⟩

/-- **C7** (corrected), amended claim.  For every pattern list, every
tie-break relation and every token: preprocessing masks the token to `<*>`
iff some common-variable pattern matches it or at least 30% of its UTF-8
*bytes* are ASCII digits; otherwise the token is kept.  In particular the
most-specific-pattern tie-break (an arbitrary `better` here) never changes
whether the token is masked. -/
theorem claim_C7_amended (better : Pattern → Pattern → String → Bool)
    (patterns : List Pattern) (word : String) :
    filterCommonVariablesWith better patterns word =
      if (patterns.any fun p => p.matchString word) || isNumericVariable word then "<*>"
      else word := by
  have hfold := bestMatchFold_isSome_aux better word patterns none
  simp only [Option.isSome_none, Bool.false_or] at hfold
  simp only [filterCommonVariablesWith, bestMatchFold, hfold]
  by_cases hany : (patterns.any fun p => p.matchString word) = true
  · simp [hany]
  · simp only [Bool.not_eq_true] at hany
    simp only [hany, Bool.false_or, if_false]
    by_cases hnum : isNumericVariable word = true
    · simp [hnum]
    · simp only [Bool.not_eq_true] at hnum
      simp [hnum]

/-- **C9** (corrected), counterexample.  The claim states that the encoded
check returns false for every token shorter than 16.  `"YXNkZg=="` has
length 8, every character base64-valid and an `=` suffix: the base64 branch
of `looksLikeEncoded` accepts it, because only the diversity branch is
gated on length 16. -/
theorem claim_C9_counterexample :
    looksLikeEncoded "YXNkZg==" = true ∧ goLen "YXNkZg==" < 16 :=
  ⟨by rfl, by decide⟩

/-- **C9** (corrected), amended claim.  Tokens shorter than 8 bytes are
never flagged; for a token of length 8 to 15, the verdict is exactly the
base64 branch (valid-character ratio above 0.95 with an `=` or `==`
padding suffix) — the length ≥ 16 gate applies only to the
unique-character-ratio branch. -/
theorem claim_C9_amended (word : String) (h16 : goLen word < 16) :
    looksLikeEncoded word =
      (decide (8 ≤ goLen word) &&
       (decide (20 * countCh
          (fun c => isLetterCh c || isDigitCh c || c = '+' || c = '/' || c = '=') word >
          19 * goLen word) &&
        (goHasSuffix word "=" || goHasSuffix word "=="))) := by
  unfold looksLikeEncoded
  by_cases h8 : goLen word < 8
  · have : ¬ 8 ≤ goLen word := by omega
    simp [h8, this]
  · have h8' : 8 ≤ goLen word := by omega
    have hno16 : ¬ goLen word ≥ 16 := by omega
    simp [h8, h8', hno16]

/-- Witness for `claim_C9_amended` at `word = "YXNkZg=="`. -/
theorem claim_C9_amended_witness :
    goLen "YXNkZg==" < 16 ∧
    looksLikeEncoded "YXNkZg==" =
      (decide (8 ≤ goLen "YXNkZg==") &&
       (decide (20 * countCh
          (fun c => isLetterCh c || isDigitCh c || c = '+' || c = '/' || c = '=') "YXNkZg==" >
          19 * goLen "YXNkZg==") &&
        (goHasSuffix "YXNkZg==" "=" || goHasSuffix "YXNkZg==" "=="))) :=
  ⟨by decide, claim_C9_amended "YXNkZg==" (by decide)⟩

/-- **C10** (confirmed).  Template post-processing is applied
unconditionally: with `useEnhancedPostProcessing = false`, every token of a
template assembled by `buildCompleteTemplate` that is not already `<*>` and
either has ≥30% digit bytes (`isNumericVariable`) or mixed
letter/digit/separator content (more than one digit, not letter-dominated,
not a protocol name) is rewritten to `<*>` in the emitted token array. -/
theorem claim_C10_postprocessing_unconditional (cfg : Config)
    (baseTemplate pathTemplate : List (Nat × String)) (i : Nat) (word : String)
    (hcfg : cfg.useEnhancedPostProcessing = false)
    (hfind : assocFind i (mergedTemplate baseTemplate pathTemplate) = some word)
    (hi : i ≤ templateMaxPos (mergedTemplate baseTemplate pathTemplate))
    (hword : word ≠ "<*>")
    (hcond : isNumericVariable word = true ∨
      (1 < countCh isDigitCh word ∧
       (0 < countCh isLetterCh word ∨ 0 < countCh isSpecialCh word) ∧
       ¬(countCh isLetterCh word > countCh isDigitCh word * 2 ∧
         countCh isDigitCh word ≤ 1) ∧
       isProtocolName word = false)) :
    (templateTokens cfg baseTemplate pathTemplate).get? i = some "<*>" := by
  have hSBV : shouldBeVariable word = true := by
    rcases hcond with h | ⟨hd2, hls, _, hproto⟩
    · simp [shouldBeVariable, h]
    · simp [shouldBeVariable, mixed_of_counts word hd2 hls hproto]
  have hSBVc : shouldBeVariableWithConfig cfg word = true := by
    simp [shouldBeVariableWithConfig, hcfg, hSBV]
  unfold templateTokens
  dsimp only
  rw [List.get?_map, List.get?_range (by omega), Option.map_some', hfind]
  simp [hword, hSBVc]

/-- Witness for `claim_C10_postprocessing_unconditional` at the token
`"user_12ab3x"` in position 0, default (non-enhanced) configuration. -/
theorem claim_C10_postprocessing_unconditional_witness :
    defaultConfig.useEnhancedPostProcessing = false ∧
    assocFind 0 (mergedTemplate [(0, "user_12ab3x")] []) = some "user_12ab3x" ∧
    0 ≤ templateMaxPos (mergedTemplate [(0, "user_12ab3x")] []) ∧
    "user_12ab3x" ≠ "<*>" ∧
    (1 < countCh isDigitCh "user_12ab3x" ∧
     (0 < countCh isLetterCh "user_12ab3x" ∨ 0 < countCh isSpecialCh "user_12ab3x") ∧
     ¬(countCh isLetterCh "user_12ab3x" > countCh isDigitCh "user_12ab3x" * 2 ∧
       countCh isDigitCh "user_12ab3x" ≤ 1) ∧
     isProtocolName "user_12ab3x" = false) ∧
    (templateTokens defaultConfig [(0, "user_12ab3x")] []).get? 0 = some "<*>" :=
  ⟨rfl, rfl, by decide, by decide,
   ⟨by decide, Or.inl (by decide), by decide, by rfl⟩,
   claim_C10_postprocessing_unconditional defaultConfig [(0, "user_12ab3x")] [] 0
     "user_12ab3x" rfl rfl (by decide) (by decide)
     (Or.inr ⟨by decide, Or.inl (by decide), by decide, by rfl⟩)⟩

/-- **C8** (corrected), counterexample.  The claim states that after *each*
of the three relaxation levels the level's results are quality-filtered and
only good outputs are kept, and that if no level produced good outputs the
original bad results are returned unchanged.  On a reparse batch holding
the single line `"111 222"` every level re-derives the all-wildcard
template `"<*> <*>"`: levels 1 and 2 discard it as low-quality, but level 3
accepts its results *without* filtering, so the function returns
`[("<*> <*>", 1, [0])]` — a template that fails `isQualityTemplate` — and
not the original bad results. -/
theorem claim_C8_counterexample :
    reparseWithRelaxedSettings enhancedConfig [⟨"<*> <*> <*>", 1, [0]⟩]
        [⟨0, "111 222", [⟨"<*>", 0, 2⟩, ⟨"<*>", 1, 2⟩]⟩] =
      [⟨"<*> <*>", 1, [0]⟩] ∧
    isQualityTemplate enhancedConfig "<*> <*>" = false ∧
    ([(⟨"<*> <*>", 1, [0]⟩ : ParseResult)] ≠
      [(⟨"<*> <*> <*>", 1, [0]⟩ : ParseResult)]) :=
  ⟨by rfl, by rfl, by decide⟩

/-- **C8** (corrected), amended claim.  The reparse loop equals the staged
description `reparseStaged`: levels 1 and 2 keep only quality-filtered
outputs and drop the lines of kept logs before the next level, but level 3
keeps *all* of its outputs unfiltered; the original bad results are
returned only when all three levels kept nothing. -/
theorem claim_C8_amended (cfg : Config) (badResults : List ParseResult)
    (allLogs : List LogMessage) :
    reparseWithRelaxedSettings cfg badResults allLogs =
      reparseStaged cfg badResults allLogs := by
  unfold reparseWithRelaxedSettings reparseStaged
  by_cases hb : badResults.isEmpty = true
  · simp only [hb, if_true]
  · simp only [hb, Bool.false_eq_true, if_false]
    by_cases hl : (extractLogsFromResults badResults allLogs).isEmpty = true
    · simp only [hl, if_true]
    · simp only [hl, Bool.false_eq_true, if_false]
      rw [reparse_step_eq _ _ _ _ (filter_good_of_empty _ _),
        reparse_step_eq _ _ _ _ (filter_good_of_empty _ _)]
      dsimp only
      set B := extractLogsFromResults badResults allLogs with hB
      set L0 := B.map (fun l => l.content) with hL0
      set C1 := ({ cfg with
        entropyThresholdNum := 95
        entropyThresholdDen := 100
        minEntropyLength := 15
        timestampMinDigits := 10
        isReparsing := true } : Config) with hC1
      set C2 := ({ cfg with
        useEnhancedPostProcessing := false
        isReparsing := true } : Config) with hC2
      set C3 := ({ cfg with
        useEnhancedPostProcessing := false
        useStatisticalThreshold := false
        isReparsing := true } : Config) with hC3
      set G1 := (filterLowQualityTemplates C1 (tryReparseWithConfig C1 L0)).1 with hG1
      set L1 := (if G1.isEmpty = true then L0
        else removeProcessedLogs L0 B (G1.flatMap fun r => r.logIDs)) with hL1
      set G2 := (filterLowQualityTemplates C2 (tryReparseWithConfig C2 L1)).1 with hG2
      set L2 := (if G2.isEmpty = true then L1
        else removeProcessedLogs L1 B (G2.flatMap fun r => r.logIDs)) with hL2
      clear_value B L0 C1 C2 C3 G1 L1 G2 L2
      clear hB hL0 hC1 hC2 hC3 hG1 hG2 hb hl
      cases eL1 : L1.isEmpty with
      | true => cases eG1 : G1.isEmpty <;> simp_all [isEmpty_append]
      | false =>
        cases eG2 : G2.isEmpty <;> cases eG1 : G1.isEmpty <;> cases eL2 : L2.isEmpty <;>
          cases eP3 : (tryReparseWithConfig C3 L2).isEmpty <;> simp_all [isEmpty_append]

/-- **C5** (confirmed).  In child-direction construction, when the sorted
remaining columns start with position `p`: the column's distinct-value
count `u` equals the partition size the code branches on; if
`u > threshold` (strict), a single variable child labeled `<*>` owning all
of `currentLogs` is created and recursion continues on the remaining
columns; otherwise one constant child per distinct value is created (keys
distinct and exactly the values at the column), each owning exactly the
sublogs carrying its value, with recursion on each sublog set. -/
theorem claim_C5_child_direction (cfg : Config) (parentCols : List Nat)
    (currentLogs : List LogMessage) (childCols : List Nat) (p : Nat) (rest : List Nat)
    (hsort : insertionSortBy (fun i j => countUniqueWordsInColumn currentLogs i ≤
        countUniqueWordsInColumn currentLogs j) childCols = p :: rest) :
    (partitionByColumn currentLogs p).length = countUniqueWordsInColumn currentLogs p ∧
    (((countUniqueWordsInColumn currentLogs p : Int) >
        calculateDynamicThreshold cfg (countUniqueWordsInColumn currentLogs p)) →
      updateChildDirection cfg parentCols currentLogs childCols =
        [("<*>", Node.mk "" true p [] currentLogs
          (updateChildDirection cfg parentCols currentLogs rest))]) ∧
    (¬((countUniqueWordsInColumn currentLogs p : Int) >
        calculateDynamicThreshold cfg (countUniqueWordsInColumn currentLogs p)) →
      updateChildDirection cfg parentCols currentLogs childCols =
        (partitionByColumn currentLogs p).map fun ws =>
          (ws.1, Node.mk ws.1 false p (computeParentWords parentCols ws.2) ws.2
            (updateChildDirection cfg parentCols ws.2 rest))) ∧
    ((partitionByColumn currentLogs p).map (·.1)).Nodup ∧
    (∀ v, v ∈ (partitionByColumn currentLogs p).map (·.1) ↔
      v ∈ columnValues currentLogs p) ∧
    (∀ vl ∈ partitionByColumn currentLogs p,
      vl.2 = currentLogs.filter fun log =>
        (log.words.get? p).map (·.value) = some vl.1) := by
  have hlen : childCols.length = rest.length + 1 := by
    have h := length_insertionSortBy (fun i j =>
      countUniqueWordsInColumn currentLogs i ≤
      countUniqueWordsInColumn currentLogs j) childCols
    rw [hsort] at h
    simpa using h.symm
  have hne : childCols.isEmpty = false := by
    cases childCols with
    | nil => simp at hlen
    | cons a b => rfl
  refine ⟨partition_length_eq _ _, ?_, ?_,
    partition_fold_keys_nodup _ [] (by simp),
    fun v => partition_keys_mem_columnValues _ _ _,
    partition_group_eq _ _⟩
  · intro hgt
    rw [← partition_length_eq] at hgt
    unfold updateChildDirection
    rw [hlen]
    simp only [updateChildDirectionFuel, hne, Bool.false_eq_true, if_false, hsort]
    rw [if_pos hgt]
  · intro hgt
    rw [← partition_length_eq] at hgt
    unfold updateChildDirection
    rw [hlen]
    simp only [updateChildDirectionFuel, hne, Bool.false_eq_true, if_false, hsort]
    rw [if_neg hgt]

/-- Witness for `claim_C5_child_direction`: two single-word logs with
values `a`/`b` at column 0, default configuration (distinct count 2,
threshold 3, so the split branch applies). -/
theorem claim_C5_child_direction_witness :
    (insertionSortBy (fun i j =>
        countUniqueWordsInColumn [⟨0, "", [⟨"a", 0, 1⟩]⟩, ⟨1, "", [⟨"b", 0, 1⟩]⟩] i ≤
        countUniqueWordsInColumn [⟨0, "", [⟨"a", 0, 1⟩]⟩, ⟨1, "", [⟨"b", 0, 1⟩]⟩] j)
      [0] = [0]) ∧
    updateChildDirection defaultConfig []
        [⟨0, "", [⟨"a", 0, 1⟩]⟩, ⟨1, "", [⟨"b", 0, 1⟩]⟩] [0] =
      (partitionByColumn [⟨0, "", [⟨"a", 0, 1⟩]⟩, ⟨1, "", [⟨"b", 0, 1⟩]⟩] 0).map fun ws =>
        (ws.1, Node.mk ws.1 false 0 (computeParentWords [] ws.2) ws.2
          (updateChildDirection defaultConfig [] ws.2 [])) :=
  ⟨rfl,
   ((claim_C5_child_direction defaultConfig []
       [⟨0, "", [⟨"a", 0, 1⟩]⟩, ⟨1, "", [⟨"b", 0, 1⟩]⟩] [0] 0 [] rfl).2.2.1)
     (by decide)⟩

end Brain
